import Mathlib

/-!
# Verification of the sudoku CSP solver (`src/sudoku.js`, `src/controller.js`)

Shallow embedding of the solver.  JS numbers that hold board data are modelled
as `Int` (all values involved are small integers); JS arrays as Lean `List`s.
The board is the 2D array of `Square` objects of the source; the in-place
mutations of the source (`square.value = …`, `domain.splice(…)`) are modelled
by returning the updated board, and functions that mutate-and-return-a-flag
(`updateDomains`, `updateAllDomains`) return a `Board × Bool` pair.

The recursion of `backtrack` does not terminate on arbitrary boards
(a cell whose domain contains `0` makes the JS function recurse forever on an
unchanged board), so `backtrack` takes an explicit fuel argument and returns
`none` when the fuel is exhausted; `none` corresponds exactly to
non-termination of the JS original.  Fuel `zeroCount + 1` is proved sufficient
for well-formed boards (claim C9), matching the spec's depth bound.
-/

/-- A `Square` object (`sudoku.js` lines 9–14): row, column, value and the
domain array of candidate values. -/
structure Square where
  row : Int
  col : Int
  value : Int
  domain : List Int
deriving DecidableEq

/-- The sudoku board: the 2D array of squares. -/
abbrev Board := List (List Square)

/-- Reading `squares[i][j]` (out-of-range access never happens on the 9×9
boards all claims are about; the default square stands for JS `undefined`). -/
def cellAt (b : Board) (i j : Nat) : Square :=
  (b.getD i []).getD j ⟨-1, -1, -1, []⟩

/-- Writing `squares[i][j] = s`. -/
def setCell (b : Board) (i j : Nat) (s : Square) : Board :=
  b.set i ((b.getD i []).set j s)

/-- `squares[i][j].value = v` (`backtrack`, line 81). -/
def setValue (b : Board) (i j : Nat) (v : Int) : Board :=
  setCell b i j { cellAt b i j with value := v }

/-- `squares[i][j].domain = d` (`updateDomains`, line 184). -/
def setDomain (b : Board) (i j : Nat) (d : List Int) : Board :=
  setCell b i j { cellAt b i j with domain := d }

/-- `index = squares[i][j].domain.indexOf(v); if (index != -1) …splice(index, 1)`
(`updateDomains`, lines 191–194 etc.): removes the first occurrence of `v`
from the domain of square `(i, j)`, a no-op when `v` is absent — exactly
`List.erase`. -/
def eraseAt (b : Board) (i j : Nat) (v : Int) : Board :=
  setDomain b i j (((cellAt b i j).domain).erase v)

/-- The `SudokuCSP` record (`sudoku.js` lines 27–30): a board plus a failure
flag.  The constructor's copying of the squares is modelled by `newSudokuCSP`
below. -/
structure SudokuCSP where
  squares : Board
  failure : Bool
deriving DecidableEq

/-- `copySquares` (`sudoku.js` lines 149–161): rebuilds the 2D array square by
square; `s.domain.slice(0)` copies the domain array, which at the level of
list values is the list itself.  Both loops run to `squares.length`, as in
the source. -/
def copySquares (squares : Board) : Board :=
  (List.range squares.length).map fun i =>
    (List.range squares.length).map fun j =>
      let s := cellAt squares i j
      ⟨s.row, s.col, s.value, s.domain⟩

/-- `new SudokuCSP(squares, failure)` (`sudoku.js` lines 27–30): the
constructor copies the squares it is given. -/
def newSudokuCSP (squares : Board) (failure : Bool) : SudokuCSP :=
  ⟨copySquares squares, failure⟩

/-- `isFull` (`sudoku.js` lines 113–123): true iff no square has value 0.
Both loops run to `squares.length`. -/
def isFull (squares : Board) : Bool :=
  (List.range squares.length).all fun i =>
    (List.range squares.length).all fun j =>
      (cellAt squares i j).value != 0

/-- Row-major list of the index pairs `(i, j)`, `i, j < n`: the iteration
order of the nested loops of `getEmptySquare` and `updateAllDomains`. -/
def rowMajor (n : Nat) : List (Nat × Nat) :=
  (List.range n).flatMap fun i => (List.range n).map fun j => (i, j)

/-- The loop of `getEmptySquare` (`sudoku.js` lines 131–141): first square in
row-major order whose value is 0. -/
def gesLoop (b : Board) : List (Nat × Nat) → Square
  | [] => ⟨-1, -1, -1, []⟩
  | (i, j) :: rest =>
      if (cellAt b i j).value = 0 then cellAt b i j else gesLoop b rest

/-- `getEmptySquare` (`sudoku.js` lines 131–141): returns the first empty
square, or the sentinel `Square(-1, -1, -1, [])` when the board is full. -/
def getEmptySquare (squares : Board) : Square :=
  gesLoop squares (rowMajor squares.length)

/-- The row/column loop of `updateDomains` (`sudoku.js` lines 188–209):
for each index `i`, splice `v` out of the domains of `squares[row][i]`
(unless `i == col`) and `squares[i][col]` (unless `i == row`), then return
false as soon as either of those two domains is empty. -/
def rcLoop (row col : Nat) (v : Int) : List Nat → Board → Board × Bool
  | [], b => (b, true)
  | i :: rest, b =>
      let b1 := if i ≠ col then eraseAt b row i v else b
      let b2 := if i ≠ row then eraseAt b1 i col v else b1
      if (cellAt b2 row i).domain.length = 0 ∨ (cellAt b2 i col).domain.length = 0 then
        (b2, false)
      else
        rcLoop row col v rest b2

/-- The box-base computation of `updateDomains` (`sudoku.js` lines 213–221):
`r` starts at 0 and is set to 0/3/6 by the three range tests (so it stays 0
out of range). -/
def boxBase (x : Nat) : Nat :=
  if x ≤ 2 then 0 else if 3 ≤ x ∧ x ≤ 5 then 3 else if 6 ≤ x ∧ x ≤ 8 then 6 else 0

/-- The index pairs of the 3×3 box loop (`sudoku.js` lines 223–224), in the
source's iteration order: `i` from `r` to `r+2` outer, `j` from `c` to `c+2`
inner. -/
def boxIdx (r c : Nat) : List (Nat × Nat) :=
  [(r, c), (r, c + 1), (r, c + 2),
   (r + 1, c), (r + 1, c + 1), (r + 1, c + 2),
   (r + 2, c), (r + 2, c + 1), (r + 2, c + 2)]

/-- The 3×3 box loop of `updateDomains` (`sudoku.js` lines 223–234): splice
`v` out of each box square's domain (skipping the changed square), returning
false as soon as a box square's domain is empty. -/
def boxLoop (row col : Nat) (v : Int) : List (Nat × Nat) → Board → Board × Bool
  | [], b => (b, true)
  | (i, j) :: rest, b =>
      let b1 := if ¬(i = row ∧ j = col) then eraseAt b i j v else b
      if (cellAt b1 i j).domain.length = 0 then
        (b1, false)
      else
        boxLoop row col v rest b1

/-- `updateDomains` (`sudoku.js` lines 171–239).  Returns the (mutated) board
together with the boolean result of the source function. -/
def updateDomains (squares : Board) (row col : Nat) : Board × Bool :=
  let newValue := (cellAt squares row col).value
  if newValue = 0 then
    (squares, true)
  else
    let b0 := setDomain squares row col [newValue]
    match rcLoop row col newValue (List.range squares.length) b0 with
    | (b1, false) => (b1, false)
    | (b1, true) => boxLoop row col newValue (boxIdx (boxBase row) (boxBase col)) b1

/-- The nested loop of `updateAllDomains` (`sudoku.js` lines 249–256) over
row-major index pairs, stopping at the first `updateDomains` failure. -/
def uadLoop : List (Nat × Nat) → Board → Board × Bool
  | [], b => (b, true)
  | (i, j) :: rest, b =>
      match updateDomains b i j with
      | (b1, false) => (b1, false)
      | (b1, true) => uadLoop rest b1

/-- `updateAllDomains` (`sudoku.js` lines 248–259). -/
def updateAllDomains (squares : Board) : Board × Bool :=
  uadLoop (rowMajor squares.length) squares

/-- The candidate loop of `backtrack` (`sudoku.js` lines 70–100), with the
recursive call abstracted as `bt`.  Result `none` means some recursive call
ran out of fuel; `some none` means the loop exhausted all candidates without
success; `some (some r)` means a non-failure result `r` was returned. -/
def tryCandidates (bt : SudokuCSP → Option SudokuCSP) (squares : Board)
    (row col : Nat) : List Int → Option (Option SudokuCSP)
  | [] => some none
  | value :: rest =>
      let newSquares := copySquares squares
      let newSquares1 := setValue newSquares row col value
      match updateDomains newSquares1 row col with
      | (b2, true) =>
          match bt (newSudokuCSP b2 false) with
          | none => none
          | some result =>
              if result.failure = false then some (some result)
              else tryCandidates bt squares row col rest
      | (_, false) => tryCandidates bt squares row col rest

/-- `backtrack` (`sudoku.js` lines 57–105), with fuel bounding the recursion
depth (`none` = out of fuel, i.e. the JS recursion would not have terminated
within that depth).  The sentinel square returned by `getEmptySquare` on a
full board is never used: `isFull` is checked first, so whenever the loop
runs, `square.row`/`square.col` are the (non-negative) coordinates of an
empty square and `Int.toNat` is the identity on them. -/
def backtrack : Nat → SudokuCSP → Option SudokuCSP
  | 0, _ => none
  | fuel + 1, sudoku =>
      if isFull sudoku.squares then some sudoku
      else
        let square := getEmptySquare sudoku.squares
        match tryCandidates (backtrack fuel) sudoku.squares
            square.row.toNat square.col.toNat square.domain with
        | none => none
        | some (some result) => some result
        | some none => some (newSudokuCSP sudoku.squares true)

/-- Number of empty (value 0) squares among the 81 positions of the board. -/
def zeroCount (b : Board) : Nat :=
  (rowMajor 9).countP fun p => (cellAt b p.1 p.2).value == 0

/-- `solve` (`sudoku.js` lines 38–47): copy the squares, seed the domains with
`updateAllDomains` (its boolean result is discarded, as in the source), and
run `backtrack`.  The fuel `zeroCount + 1` bounds the recursion depth; it is
proved sufficient whenever no domain contains 0 (claim C9), which holds for
every board built from an input grid, so `none` is only ever returned on
boards on which the JS recursion diverges. -/
def solve (squares : Board) : Option SudokuCSP :=
  let newSquares := copySquares squares
  let p := updateAllDomains newSquares
  backtrack (zeroCount p.1 + 1) (newSudokuCSP p.1 false)

/-- The board construction of the presentation layer (`controller.js` lines
23–34 and 53–66): square `(i, j)` carries its coordinates, the input grid's
value at `(i, j)`, and the full domain `[1, …, 9]`. -/
def mkSquares (g : List (List Int)) : Board :=
  (List.range 9).map fun i =>
    (List.range 9).map fun j =>
      ⟨Int.ofNat i, Int.ofNat j, (g.getD i []).getD j 0, [1, 2, 3, 4, 5, 6, 7, 8, 9]⟩

/-- `solve` applied to an input grid of integers, via the presentation
layer's board construction (`controller.js` line 70). -/
def solveInput (g : List (List Int)) : Option SudokuCSP :=
  solve (mkSquares g)

/-- The 9×9 grid of values of a board. -/
def valuesOf (b : Board) : List (List Int) :=
  b.map fun row => row.map fun s => s.value

/-! ## Well-formedness predicates and spec-side property language -/

/-- The board is a 9×9 array (the only shape the system is specified for). -/
abbrev Dims (b : Board) : Prop := b.length = 9 ∧ ∀ r ∈ b, r.length = 9

/-- Every square stores its own coordinates, as established by the
presentation layer's construction. -/
abbrev Coords (b : Board) : Prop :=
  ∀ i, i < 9 → ∀ j, j < 9 →
    (cellAt b i j).row = Int.ofNat i ∧ (cellAt b i j).col = Int.ofNat j

/-- No square's domain contains the value 0 (domains are drawn from 1–9). -/
abbrev ZeroFreeDoms (b : Board) : Prop :=
  ∀ i, i < 9 → ∀ j, j < 9 → (0 : Int) ∉ (cellAt b i j).domain

/-- Every square's domain is duplicate-free (domains are sets of values). -/
abbrev NodupDoms (b : Board) : Prop :=
  ∀ i, i < 9 → ∀ j, j < 9 → ((cellAt b i j).domain).Nodup

/-- `(i, j)` is a peer of `(r, c)`: a different position in the same row,
column, or 3×3 box. -/
abbrev isPeer (r c i j : Nat) : Prop :=
  ¬(i = r ∧ j = c) ∧
    (i = r ∨ j = c ∨ (boxBase i = boxBase r ∧ boxBase j = boxBase c))

/-- Value of an input grid at `(i, j)`. -/
def gridVal (g : List (List Int)) (i j : Nat) : Int := (g.getD i []).getD j 0

/-- The input grid is a 9×9 array. -/
abbrev gridDims (g : List (List Int)) : Prop := g.length = 9 ∧ ∀ r ∈ g, r.length = 9

/-- Well-formed input grid: 9×9, every entry an integer in [0, 9]. -/
abbrev gridWF (g : List (List Int)) : Prop :=
  gridDims g ∧ ∀ i, i < 9 → ∀ j, j < 9 → 0 ≤ gridVal g i j ∧ gridVal g i j ≤ 9

/-- The input grid has no empty (value 0) cell. -/
abbrev gridFull (g : List (List Int)) : Prop :=
  ∀ i, i < 9 → ∀ j, j < 9 → gridVal g i j ≠ 0

/-- The digits 1–9. -/
def d19 : List Int := [1, 2, 3, 4, 5, 6, 7, 8, 9]

/-- Row `i` of a value grid. -/
def rowList (g : List (List Int)) (i : Nat) : List Int :=
  (List.range 9).map fun j => gridVal g i j

/-- Column `j` of a value grid. -/
def colList (g : List (List Int)) (j : Nat) : List Int :=
  (List.range 9).map fun i => gridVal g i j

/-- Box `(k, l)` (k, l < 3) of a value grid. -/
def boxList (g : List (List Int)) (k l : Nat) : List Int :=
  (boxIdx (3 * k) (3 * l)).map fun p => gridVal g p.1 p.2

/-- The spec's constraint-satisfaction property: every row, column and 3×3
box of the value grid contains each of the digits 1–9 exactly once. -/
abbrev validCompleteValues (g : List (List Int)) : Prop :=
  (∀ i, i < 9 → ∀ v ∈ d19, (rowList g i).count v = 1) ∧
  (∀ j, j < 9 → ∀ v ∈ d19, (colList g j).count v = 1) ∧
  (∀ k, k < 3 → ∀ l, l < 3 → ∀ v ∈ d19, (boxList g k l).count v = 1)

/-- The grid contains two equal nonzero values at two different positions of
one unit (same row, same column, or same box). -/
abbrev hasDupPair (g : List (List Int)) : Prop :=
  ∃ i ∈ List.range 9, ∃ j ∈ List.range 9, ∃ i2 ∈ List.range 9, ∃ j2 ∈ List.range 9,
    ¬(i = i2 ∧ j = j2) ∧
    (i = i2 ∨ j = j2 ∨ (boxBase i = boxBase i2 ∧ boxBase j = boxBase j2)) ∧
    gridVal g i j ≠ 0 ∧ gridVal g i j = gridVal g i2 j2

/-! ## Concrete boards and grids used as evidence -/

/-- A row of nine 1s. -/
def onesRow : List Int := [1, 1, 1, 1, 1, 1, 1, 1, 1]

/-- The all-1s grid: full, and maximally in violation of the constraints. -/
def onesGrid : List (List Int) := List.replicate 9 onesRow

/-- The all-1s grid with the last cell empty: not full, full of duplicated
nonzero values. -/
def nearOnesGrid : List (List Int) :=
  List.replicate 8 onesRow ++ [[1, 1, 1, 1, 1, 1, 1, 1, 0]]

/-- The empty grid. -/
def zerosGrid : List (List Int) := List.replicate 9 (List.replicate 9 0)

/-- A valid complete sudoku grid (the cyclic solution). -/
def solvedGrid : List (List Int) :=
  [[1, 2, 3, 4, 5, 6, 7, 8, 9],
   [4, 5, 6, 7, 8, 9, 1, 2, 3],
   [7, 8, 9, 1, 2, 3, 4, 5, 6],
   [2, 3, 4, 5, 6, 7, 8, 9, 1],
   [5, 6, 7, 8, 9, 1, 2, 3, 4],
   [8, 9, 1, 2, 3, 4, 5, 6, 7],
   [3, 4, 5, 6, 7, 8, 9, 1, 2],
   [6, 7, 8, 9, 1, 2, 3, 4, 5],
   [9, 1, 2, 3, 4, 5, 6, 7, 8]]

/-- The result of `solve` on the all-1s grid (a concrete `SudokuCSP`). -/
def onesRes : SudokuCSP := (solveInput onesGrid).getD ⟨[], true⟩

/-- Empty board with `(0,0)` holding value 5 and row-peer `(0,1)` having the
singleton domain `[5]`: propagation from `(0,0)` empties `(0,1)`'s domain and
short-circuits, leaving 5 in the domains of the later peers. -/
def c3Board : Board := setDomain (setValue (mkSquares zerosGrid) 0 0 5) 0 1 [5]

/-- Empty board with `(2,3)` assigned the value 7: propagation succeeds. -/
def c3SuccBoard : Board := setValue (mkSquares zerosGrid) 2 3 7

/-- Empty board with `(4,4)` assigned the value 9. -/
def c6Board : Board := setValue (mkSquares zerosGrid) 4 4 9

/-- Board on which `backtrack` exhausts its candidates: `(0,0)` is empty with
domain `[5]`, and `(0,1)` holds 5 with domain `[5]`, so the only trial
assignment fails propagation. -/
def c8Board : Board :=
  setDomain (setValue (setDomain (mkSquares zerosGrid) 0 0 [5]) 0 1 5) 0 1 [5]

/-- The (failure) result of `backtrack` on `c8Board`. -/
def c8Res : SudokuCSP := (backtrack 1 ⟨c8Board, false⟩).getD ⟨[], false⟩

/-! ## Store-passing embedding for the aliasing / frame claims

The value-level embedding above cannot express object identity, so the two
frame claims (about `copySquares` producing an independent deep copy, and
`solve` leaving its argument untouched) are settled against a second,
store-passing embedding of the same source functions: `Square` objects and
domain arrays live in two stores addressed by indices, `new Square(...)` and
`.slice(0)` allocate, and `.value = …`, `.domain = …`, `.splice(…)` write in
place.  A 2D board array is a 2D array of square references. -/

/-- A heap-allocated `Square` object: its fields, with the domain array held
by reference. -/
structure HSquare where
  row : Int
  col : Int
  value : Int
  domRef : Nat
deriving DecidableEq

/-- The store: all allocated `Square` objects and all allocated domain
arrays, addressed by list index.  Allocation appends. -/
structure Heap where
  sqs : List HSquare
  doms : List (List Int)
deriving DecidableEq

/-- A board in the store-passing embedding: a 2D array of references to
`Square` objects. -/
abbrev HGrid := List (List Nat)

/-- The reference stored at `squares[i][j]`. -/
def sqRef (g : HGrid) (i j : Nat) : Nat := (g.getD i []).getD j 0

/-- Dereference a `Square` object. -/
def readSq (h : Heap) (r : Nat) : HSquare := h.sqs.getD r ⟨-1, -1, -1, 0⟩

/-- Dereference a domain array. -/
def readDom (h : Heap) (dr : Nat) : List Int := h.doms.getD dr []

/-- The domain contents of the square referenced by `r`. -/
def domOf (h : Heap) (r : Nat) : List Int := readDom h (readSq h r).domRef

/-- `obj.value = v`: in-place field write. -/
def writeValueH (h : Heap) (r : Nat) (v : Int) : Heap :=
  ⟨h.sqs.set r { readSq h r with value := v }, h.doms⟩

/-- `obj.domain = d`: allocates a fresh array holding `d` and repoints the
object's domain field at it (`updateDomains`, line 184). -/
def assignDomH (h : Heap) (r : Nat) (d : List Int) : Heap :=
  ⟨h.sqs.set r { readSq h r with domRef := h.doms.length }, h.doms ++ [d]⟩

/-- `obj.domain.splice(indexOf(v), 1)`: in-place removal of the first
occurrence of `v` from the referenced domain array. -/
def spliceDomH (h : Heap) (r : Nat) (v : Int) : Heap :=
  ⟨h.sqs, h.doms.set (readSq h r).domRef ((domOf h r).erase v)⟩

/-- One iteration body of `copySquares` (`sudoku.js` line 156): read
`squares[i][j]`, allocate a copy of its domain array (`slice(0)`), allocate a
new `Square` object with the same fields and the fresh domain. -/
def copyCellH (g : HGrid) (i j : Nat) (h : Heap) : Nat × Heap :=
  let s := readSq h (sqRef g i j)
  let dr := h.doms.length
  let h1 : Heap := ⟨h.sqs, h.doms ++ [readDom h s.domRef]⟩
  (h1.sqs.length, ⟨h1.sqs ++ [⟨s.row, s.col, s.value, dr⟩], h1.doms⟩)

/-- Inner loop of `copySquares`: copy the squares of row `i` at the given
column indices, threading the store left to right. -/
def copyRowH (g : HGrid) (i : Nat) : List Nat → Heap → List Nat × Heap
  | [], h => ([], h)
  | j :: rest, h =>
      let p := copyCellH g i j h
      let q := copyRowH g i rest p.2
      (p.1 :: q.1, q.2)

/-- Outer loop of `copySquares`: both loops run to `squares.length` as in the
source. -/
def copyRowsH (g : HGrid) (n : Nat) : List Nat → Heap → HGrid × Heap
  | [], h => ([], h)
  | i :: rest, h =>
      let p := copyRowH g i (List.range n) h
      let q := copyRowsH g n rest p.2
      (p.1 :: q.1, q.2)

/-- `copySquares` (`sudoku.js` lines 149–161) in the store-passing
embedding. -/
def copySquaresH (g : HGrid) (h : Heap) : HGrid × Heap :=
  copyRowsH g g.length (List.range g.length) h

/-- `isFull` in the store-passing embedding (reads only). -/
def isFullH (h : Heap) (g : HGrid) : Bool :=
  (List.range g.length).all fun i =>
    (List.range g.length).all fun j =>
      (readSq h (sqRef g i j)).value != 0

/-- Loop of `getEmptySquare`: reference of the first empty square. -/
def gesLoopH (h : Heap) (g : HGrid) : List (Nat × Nat) → Option Nat
  | [] => none
  | (i, j) :: rest =>
      if (readSq h (sqRef g i j)).value = 0 then some (sqRef g i j)
      else gesLoopH h g rest

/-- `getEmptySquare` in the store-passing embedding.  The not-found branch
allocates the sentinel `new Square(-1, -1, -1, [])` (with a fresh empty
domain array); it is unreachable from `backtrack`, which checks `isFull`
first. -/
def getEmptySquareH (g : HGrid) (h : Heap) : Nat × Heap :=
  match gesLoopH h g (rowMajor g.length) with
  | some r => (r, h)
  | none =>
      let dr := h.doms.length
      let h1 : Heap := ⟨h.sqs, h.doms ++ [[]]⟩
      (h1.sqs.length, ⟨h1.sqs ++ [⟨-1, -1, -1, dr⟩], h1.doms⟩)

/-- Row/column loop of `updateDomains` in the store-passing embedding. -/
def rcLoopH (g : HGrid) (row col : Nat) (v : Int) : List Nat → Heap → Heap × Bool
  | [], h => (h, true)
  | i :: rest, h =>
      let h1 := if i ≠ col then spliceDomH h (sqRef g row i) v else h
      let h2 := if i ≠ row then spliceDomH h1 (sqRef g i col) v else h1
      if (domOf h2 (sqRef g row i)).length = 0 ∨ (domOf h2 (sqRef g i col)).length = 0 then
        (h2, false)
      else
        rcLoopH g row col v rest h2

/-- Box loop of `updateDomains` in the store-passing embedding. -/
def boxLoopH (g : HGrid) (row col : Nat) (v : Int) : List (Nat × Nat) → Heap → Heap × Bool
  | [], h => (h, true)
  | (i, j) :: rest, h =>
      let h1 := if ¬(i = row ∧ j = col) then spliceDomH h (sqRef g i j) v else h
      if (domOf h1 (sqRef g i j)).length = 0 then
        (h1, false)
      else
        boxLoopH g row col v rest h1

/-- `updateDomains` in the store-passing embedding. -/
def updateDomainsH (g : HGrid) (row col : Nat) (h : Heap) : Heap × Bool :=
  let newValue := (readSq h (sqRef g row col)).value
  if newValue = 0 then
    (h, true)
  else
    let h0 := assignDomH h (sqRef g row col) [newValue]
    match rcLoopH g row col newValue (List.range g.length) h0 with
    | (h1, false) => (h1, false)
    | (h1, true) => boxLoopH g row col newValue (boxIdx (boxBase row) (boxBase col)) h1

/-- Loop of `updateAllDomains` in the store-passing embedding. -/
def uadLoopH (g : HGrid) : List (Nat × Nat) → Heap → Heap × Bool
  | [], h => (h, true)
  | (i, j) :: rest, h =>
      match updateDomainsH g i j h with
      | (h1, false) => (h1, false)
      | (h1, true) => uadLoopH g rest h1

/-- `updateAllDomains` in the store-passing embedding. -/
def updateAllDomainsH (g : HGrid) (h : Heap) : Heap × Bool :=
  uadLoopH g (rowMajor g.length) h

/-- Number of empty squares, read through the store. -/
def zeroCountH (h : Heap) (g : HGrid) : Nat :=
  g.flatten.countP fun r => (readSq h r).value == 0

/-- Candidate loop of `backtrack` in the store-passing embedding.  The
candidate list is the chosen square's domain array as read at loop entry; no
iteration writes to that square (`sudoku.js` mutates only the fresh copy), so
re-reading `square.domain[i]` each iteration, as the source does, reads the
same values — this is part of what the frame theorem proves.  Result `none`
is fuel exhaustion; `some (none, h)` is candidate exhaustion with final store
`h`; `some (some res, h)` is a returned non-failure result. -/
def tryCandidatesH (bt : HGrid × Bool → Heap → Option ((HGrid × Bool) × Heap))
    (g : HGrid) (row col : Nat) : List Int → Heap → Option (Option (HGrid × Bool) × Heap)
  | [], h => some (none, h)
  | value :: rest, h =>
      let pc := copySquaresH g h
      let h2 := writeValueH pc.2 (sqRef pc.1 row col) value
      match updateDomainsH pc.1 row col h2 with
      | (h3, true) =>
          let pc2 := copySquaresH pc.1 h3
          match bt (pc2.1, false) pc2.2 with
          | none => none
          | some (result, h4) =>
              if result.2 = false then some (some result, h4)
              else tryCandidatesH bt g row col rest h4
      | (h3, false) => tryCandidatesH bt g row col rest h3

/-- `backtrack` in the store-passing embedding, with the same fuel
discipline as the value-level `backtrack`. -/
def backtrackH : Nat → HGrid × Bool → Heap → Option ((HGrid × Bool) × Heap)
  | 0, _, _ => none
  | fuel + 1, sudoku, h =>
      if isFullH h sudoku.1 then some (sudoku, h)
      else
        let pe := getEmptySquareH sudoku.1 h
        let s := readSq pe.2 pe.1
        match tryCandidatesH (backtrackH fuel) sudoku.1
            s.row.toNat s.col.toNat (readDom pe.2 s.domRef) pe.2 with
        | none => none
        | some (some result, h2) => some (result, h2)
        | some (none, h2) =>
            let pc := copySquaresH sudoku.1 h2
            some ((pc.1, true), pc.2)

/-- `solve` in the store-passing embedding: copy the caller's squares, seed
domains, wrap in a fresh CSP (which copies again) and run `backtrack`. -/
def solveH (g : HGrid) (h : Heap) : Option ((HGrid × Bool) × Heap) :=
  let p1 := copySquaresH g h
  let p2 := updateAllDomainsH p1.1 p1.2
  let p3 := copySquaresH p1.1 p2.1
  backtrackH (zeroCountH p3.2 p3.1 + 1) (p3.1, false) p3.2

/-! ### Frame-reasoning vocabulary for the store-passing embedding -/

/-- All of the store below the watermarks `(n0, d0)` is unchanged from `h` to
`h2`, and the store only grew. -/
abbrev FrameAbove (n0 d0 : Nat) (h h2 : Heap) : Prop :=
  h2.sqs.take n0 = h.sqs.take n0 ∧ h2.doms.take d0 = h.doms.take d0 ∧
  h.sqs.length ≤ h2.sqs.length ∧ h.doms.length ≤ h2.doms.length

/-- Every square reference of the grid is a valid reference at or above the
watermark `n0`, and its domain reference is valid and at or above `d0`. -/
abbrev RegionAbove (n0 d0 : Nat) (h : Heap) (g : HGrid) : Prop :=
  ∀ r ∈ g.flatten, n0 ≤ r ∧ r < h.sqs.length ∧
    d0 ≤ (readSq h r).domRef ∧ (readSq h r).domRef < h.doms.length

/-- The watermarks are within the store. -/
abbrev SizesAbove (n0 d0 : Nat) (h : Heap) : Prop :=
  n0 ≤ h.sqs.length ∧ d0 ≤ h.doms.length

/-- The grid is a 9×9 array of references. -/
abbrev HDims (g : HGrid) : Prop := g.length = 9 ∧ ∀ r ∈ g, r.length = 9

/-- Every square object of the grid stores its own coordinates. -/
abbrev HCoords (h : Heap) (g : HGrid) : Prop :=
  ∀ i, i < 9 → ∀ j, j < 9 →
    (readSq h (sqRef g i j)).row = Int.ofNat i ∧
    (readSq h (sqRef g i j)).col = Int.ofNat j

/-- Every square reference of the grid is valid and carries a valid domain
reference (the caller-side well-formedness of a board handed to `solve`). -/
abbrev HValid (h : Heap) (g : HGrid) : Prop :=
  ∀ r ∈ g.flatten, r < h.sqs.length ∧ (readSq h r).domRef < h.doms.length

/-- The CSP wrapping the empty board, as built from the empty grid. -/
def emptyCSP : SudokuCSP := ⟨mkSquares zerosGrid, false⟩

/-- A concrete 2×2 store-passing board used to witness the deep-copy
theorem: four distinct squares with distinct domain arrays. -/
def c7Heap : Heap :=
  ⟨[⟨0, 0, 1, 0⟩, ⟨0, 1, 2, 1⟩, ⟨1, 0, 3, 2⟩, ⟨1, 1, 0, 3⟩],
   [[1], [2], [3], [1, 2, 3]]⟩

/-- The reference grid of `c7Heap`. -/
def c7Grid : HGrid := [[0, 1], [2, 3]]

/-- The result of deep-copying `c7Grid` inside `c7Heap`. -/
def c7Pair : HGrid × Heap := copySquaresH c7Grid c7Heap

/-- A concrete 9×9 store-passing board (all values 1, full domains), used to
witness the `solve` frame theorem. -/
def c10Heap : Heap :=
  ⟨(List.range 81).map fun k => ⟨Int.ofNat (k / 9), Int.ofNat (k % 9), 1, k⟩,
   List.replicate 81 d19⟩

/-- The reference grid of `c10Heap`: square `(i, j)` is object `9*i + j`. -/
def c10Grid : HGrid :=
  (List.range 9).map fun i => (List.range 9).map fun j => 9 * i + j

/-- The concrete result of running `solveH` on `c10Grid` in `c10Heap`. -/
def c10ResPair : (HGrid × Bool) × Heap :=
  (solveH c10Grid c10Heap).getD (([], false), c10Heap)

/-- `b2` differs from `b` at most by shrunken domains: every cell keeps its
row, column and value, and its domain is a sublist of what it was.  This is
the shape of the mutation performed by the pruning loops. -/
def DomShrink (b b2 : Board) : Prop :=
  ∀ i j : Nat, ∃ d : List Int,
    cellAt b2 i j = { cellAt b i j with domain := d } ∧
    d.Sublist ((cellAt b i j).domain)

/-- Invariant carried, relative to the watermarks `(n0, d0)`, by every board
grid live during the search in the store-passing embedding: it is 9×9, all
its references are fresh (at or above the watermark) and valid, and its
squares carry their own coordinates. -/
def GridInv (n0 d0 : Nat) (h : Heap) (g : HGrid) : Prop :=
  HDims g ∧ RegionAbove n0 d0 h g ∧ HCoords h g

/-! # Theorems

### Access lemmas for the list-of-lists board representation -/

theorem getD_set_self {α : Type} (l : List α) (i : Nat) (x d : α) (h : i < l.length) :
    (l.set i x).getD i d = x := by
  rw [List.getD_eq_getElem?_getD, List.getElem?_set_self h]; rfl

theorem getD_set_ne {α : Type} (l : List α) {i i2 : Nat} (x d : α) (h : i ≠ i2) :
    (l.set i x).getD i2 d = l.getD i2 d := by
  rw [List.getD_eq_getElem?_getD, List.getElem?_set_ne h, ← List.getD_eq_getElem?_getD]

theorem getD_map_range {α : Type} (f : Nat → α) (d : α) {n i : Nat} (h : i < n) :
    ((List.range n).map f).getD i d = f i := by
  rw [List.getD_eq_getElem?_getD, List.getElem?_map, List.getElem?_range h]; rfl

theorem rebuild_getD {α : Type} (l : List α) (d : α) :
    (List.range l.length).map (fun i => l.getD i d) = l := by
  induction l with
  | nil => rfl
  | cons a t ih =>
      have h2 : ((fun i => (a :: t).getD i d) ∘ Nat.succ) = fun i => t.getD i d := rfl
      simp only [List.length_cons, List.range_succ_eq_map, List.map_cons, List.map_map, h2]
      exact congrArg (a :: ·) ih

theorem row_length {b : Board} (hd : Dims b) {i : Nat} (hi : i < 9) :
    (b.getD i []).length = 9 := by
  have h : i < b.length := by rw [hd.1]; exact hi
  rw [List.getD_eq_getElem _ _ h]
  exact hd.2 _ (List.getElem_mem h)

theorem cellAt_setCell_self {b : Board} (hd : Dims b) {i j : Nat} (hi : i < 9) (hj : j < 9)
    (s : Square) : cellAt (setCell b i j s) i j = s := by
  unfold cellAt setCell
  have hil : i < b.length := by rw [hd.1]; exact hi
  have hjl : j < (b.getD i []).length := by rw [row_length hd hi]; exact hj
  rw [getD_set_self _ _ _ _ hil, getD_set_self _ _ _ _ hjl]

theorem cellAt_setCell_ne {b : Board} {i j i2 j2 : Nat} (s : Square) (h : ¬(i2 = i ∧ j2 = j)) :
    cellAt (setCell b i j s) i2 j2 = cellAt b i2 j2 := by
  unfold cellAt setCell
  by_cases hij : i2 = i
  · subst hij
    have hj : j2 ≠ j := fun hc => h ⟨rfl, hc⟩
    by_cases hlen : i2 < b.length
    · rw [getD_set_self _ _ _ _ hlen, getD_set_ne _ _ _ (Ne.symm hj)]
    · rw [List.set_eq_of_length_le (Nat.le_of_not_lt hlen)]
  · rw [getD_set_ne _ _ _ (fun hc => hij hc.symm)]

theorem dims_setCell {b : Board} (hd : Dims b) (i j : Nat) (s : Square) :
    Dims (setCell b i j s) := by
  by_cases hlen : i < b.length
  · constructor
    · rw [setCell, List.length_set]; exact hd.1
    · intro r hr
      rcases List.mem_or_eq_of_mem_set hr with hm | hm
      · exact hd.2 r hm
      · subst hm
        rw [List.length_set]
        exact row_length hd (by rw [hd.1] at hlen; exact hlen)
  · rw [setCell, List.set_eq_of_length_le (Nat.le_of_not_lt hlen)]; exact hd

theorem cellAt_setValue {b : Board} (hd : Dims b) {i j : Nat} (hi : i < 9) (hj : j < 9)
    (v : Int) (i2 j2 : Nat) :
    cellAt (setValue b i j v) i2 j2 =
      if i2 = i ∧ j2 = j then { cellAt b i j with value := v } else cellAt b i2 j2 := by
  unfold setValue
  by_cases h : i2 = i ∧ j2 = j
  · obtain ⟨h1, h2⟩ := h; subst h1; subst h2
    rw [if_pos ⟨rfl, rfl⟩, cellAt_setCell_self hd hi hj]
  · rw [if_neg h, cellAt_setCell_ne _ h]

theorem cellAt_setDomain {b : Board} (hd : Dims b) {i j : Nat} (hi : i < 9) (hj : j < 9)
    (d : List Int) (i2 j2 : Nat) :
    cellAt (setDomain b i j d) i2 j2 =
      if i2 = i ∧ j2 = j then { cellAt b i j with domain := d } else cellAt b i2 j2 := by
  unfold setDomain
  by_cases h : i2 = i ∧ j2 = j
  · obtain ⟨h1, h2⟩ := h; subst h1; subst h2
    rw [if_pos ⟨rfl, rfl⟩, cellAt_setCell_self hd hi hj]
  · rw [if_neg h, cellAt_setCell_ne _ h]

theorem cellAt_eraseAt {b : Board} (hd : Dims b) {i j : Nat} (hi : i < 9) (hj : j < 9)
    (v : Int) (i2 j2 : Nat) :
    cellAt (eraseAt b i j v) i2 j2 =
      if i2 = i ∧ j2 = j then
        { cellAt b i j with domain := ((cellAt b i j).domain).erase v }
      else cellAt b i2 j2 := by
  unfold eraseAt
  exact cellAt_setDomain hd hi hj _ i2 j2

theorem dims_setValue {b : Board} (hd : Dims b) (i j : Nat) (v : Int) :
    Dims (setValue b i j v) := dims_setCell hd i j _

theorem dims_setDomain {b : Board} (hd : Dims b) (i j : Nat) (d : List Int) :
    Dims (setDomain b i j d) := dims_setCell hd i j _

theorem dims_eraseAt {b : Board} (hd : Dims b) (i j : Nat) (v : Int) :
    Dims (eraseAt b i j v) := dims_setCell hd i j _

theorem copySquares_eq_self {b : Board} (hd : Dims b) : copySquares b = b := by
  unfold copySquares
  conv_rhs => rw [← rebuild_getD b ([] : List Square)]
  apply List.map_congr_left
  intro i hi
  rw [List.mem_range] at hi
  have hi9 : i < 9 := by rw [hd.1] at hi; exact hi
  have hrl : (b.getD i []).length = 9 := row_length hd hi9
  conv_rhs => rw [← rebuild_getD (b.getD i []) (⟨-1, -1, -1, []⟩ : Square)]
  rw [hrl, hd.1]
  rfl

theorem cellAt_mkSquares {g : List (List Int)} {i j : Nat} (hi : i < 9) (hj : j < 9) :
    cellAt (mkSquares g) i j = ⟨Int.ofNat i, Int.ofNat j, gridVal g i j, d19⟩ := by
  unfold cellAt mkSquares
  rw [getD_map_range _ _ hi, getD_map_range _ _ hj]
  rfl

theorem dims_mkSquares (g : List (List Int)) : Dims (mkSquares g) := by
  constructor
  · simp [mkSquares]
  · intro r hr
    simp only [mkSquares, List.mem_map, List.mem_range] at hr
    obtain ⟨i, _, rfl⟩ := hr
    simp

theorem coords_mkSquares (g : List (List Int)) : Coords (mkSquares g) := by
  intro i hi j hj
  rw [cellAt_mkSquares hi hj]
  exact ⟨rfl, rfl⟩

theorem zerofree_mkSquares (g : List (List Int)) : ZeroFreeDoms (mkSquares g) := by
  intro i hi j hj
  rw [cellAt_mkSquares hi hj]
  show (0 : Int) ∉ d19
  decide

theorem nodup_mkSquares (g : List (List Int)) : NodupDoms (mkSquares g) := by
  intro i hi j hj
  rw [cellAt_mkSquares hi hj]
  show d19.Nodup
  decide

theorem valuesOf_mkSquares {g : List (List Int)} (hg : gridDims g) :
    valuesOf (mkSquares g) = g := by
  unfold valuesOf mkSquares
  rw [List.map_map]
  conv_rhs => rw [← rebuild_getD g ([] : List Int)]
  rw [hg.1]
  apply List.map_congr_left
  intro i hi
  rw [List.mem_range] at hi
  have hrl : (g.getD i []).length = 9 := by
    have h : i < g.length := by rw [hg.1]; exact hi
    rw [List.getD_eq_getElem _ _ h]
    exact hg.2 _ (List.getElem_mem h)
  simp only [Function.comp, List.map_map]
  conv_rhs => rw [← rebuild_getD (g.getD i []) (0 : Int)]
  rw [hrl]
  rfl

/-! ### Domain-shrinking shape of the pruning loops -/

theorem domShrink_refl (b : Board) : DomShrink b b :=
  fun i j => ⟨(cellAt b i j).domain, rfl, List.Sublist.refl _⟩

theorem domShrink_trans {b b1 b2 : Board} (h1 : DomShrink b b1) (h2 : DomShrink b1 b2) :
    DomShrink b b2 := by
  intro i j
  obtain ⟨d1, e1, s1⟩ := h1 i j
  obtain ⟨d2, e2, s2⟩ := h2 i j
  refine ⟨d2, ?_, ?_⟩
  · rw [e2, e1]
  · rw [e1] at s2
    exact List.Sublist.trans s2 s1

theorem domShrink_eraseAt {b : Board} (hd : Dims b) {i j : Nat} (hi : i < 9) (hj : j < 9)
    (v : Int) : DomShrink b (eraseAt b i j v) := by
  intro i2 j2
  rw [cellAt_eraseAt hd hi hj v i2 j2]
  split
  · next h =>
      obtain ⟨h1, h2⟩ := h; subst h1; subst h2
      exact ⟨_, rfl, List.erase_sublist _ _⟩
  · exact ⟨(cellAt b i2 j2).domain, rfl, List.Sublist.refl _⟩

theorem domShrink_ite_eraseAt {b : Board} (hd : Dims b) {i j : Nat} (hi : i < 9) (hj : j < 9)
    (v : Int) (c : Prop) [Decidable c] :
    DomShrink b (if c then eraseAt b i j v else b) := by
  split
  · exact domShrink_eraseAt hd hi hj v
  · exact domShrink_refl b

theorem dims_ite_eraseAt {b : Board} (hd : Dims b) (i j : Nat) (v : Int)
    (c : Prop) [Decidable c] : Dims (if c then eraseAt b i j v else b) := by
  split
  · exact dims_eraseAt hd i j v
  · exact hd

theorem rcLoop_shape (row col : Nat) (v : Int) (hrow : row < 9) (hcol : col < 9) :
    ∀ (is : List Nat) (b : Board), Dims b → (∀ i ∈ is, i < 9) →
      Dims (rcLoop row col v is b).1 ∧ DomShrink b (rcLoop row col v is b).1 := by
  intro is
  induction is with
  | nil => intro b hd _; exact ⟨hd, domShrink_refl b⟩
  | cons i rest ih =>
      intro b hd hbound
      have hi9 : i < 9 := hbound i (List.mem_cons_self ..)
      simp only [rcLoop]
      set b1 := if i ≠ col then eraseAt b row i v else b with hb1
      set b2 := if i ≠ row then eraseAt b1 i col v else b1 with hb2
      have hd1 : Dims b1 := hb1 ▸ dims_ite_eraseAt hd row i v _
      have hd2 : Dims b2 := hb2 ▸ dims_ite_eraseAt hd1 i col v _
      have hs1 : DomShrink b b1 := hb1 ▸ domShrink_ite_eraseAt hd hrow hi9 v _
      have hs2 : DomShrink b1 b2 := hb2 ▸ domShrink_ite_eraseAt hd1 hi9 hcol v _
      have hs12 : DomShrink b b2 := domShrink_trans hs1 hs2
      split
      · exact ⟨hd2, hs12⟩
      · obtain ⟨ihd, ihs⟩ := ih b2 hd2 (fun i2 hi2 => hbound i2 (List.mem_cons_of_mem _ hi2))
        exact ⟨ihd, domShrink_trans hs12 ihs⟩

theorem boxLoop_shape (row col : Nat) (v : Int) :
    ∀ (ps : List (Nat × Nat)) (b : Board), Dims b → (∀ p ∈ ps, p.1 < 9 ∧ p.2 < 9) →
      Dims (boxLoop row col v ps b).1 ∧ DomShrink b (boxLoop row col v ps b).1 := by
  intro ps
  induction ps with
  | nil => intro b hd _; exact ⟨hd, domShrink_refl b⟩
  | cons p rest ih =>
      obtain ⟨i, j⟩ := p
      intro b hd hbound
      have hij : i < 9 ∧ j < 9 := hbound (i, j) (List.mem_cons_self ..)
      simp only [boxLoop]
      set b1 := if ¬(i = row ∧ j = col) then eraseAt b i j v else b with hb1
      have hd1 : Dims b1 := hb1 ▸ dims_ite_eraseAt hd i j v _
      have hs1 : DomShrink b b1 := hb1 ▸ domShrink_ite_eraseAt hd hij.1 hij.2 v _
      split
      · exact ⟨hd1, hs1⟩
      · obtain ⟨ihd, ihs⟩ := ih b1 hd1 (fun q hq => hbound q (List.mem_cons_of_mem _ hq))
        exact ⟨ihd, domShrink_trans hs1 ihs⟩

theorem mem_boxIdx {r c : Nat} {i j : Nat} :
    (i, j) ∈ boxIdx r c ↔ (r ≤ i ∧ i < r + 3 ∧ c ≤ j ∧ j < c + 3) := by
  simp only [boxIdx, List.mem_cons, List.not_mem_nil, or_false, Prod.mk.injEq]
  omega

theorem boxBase_eq : ∀ x, x < 9 → boxBase x = 3 * (x / 3) := by decide

theorem boxBase_le6 : ∀ x, x < 9 → boxBase x ≤ 6 := by decide

theorem boxBase_bounds : ∀ x, x < 9 → boxBase x ≤ x ∧ x < boxBase x + 3 := by decide

theorem boxIdx_bounds {row col : Nat} (hr : row < 9) (hc : col < 9) :
    ∀ p ∈ boxIdx (boxBase row) (boxBase col), p.1 < 9 ∧ p.2 < 9 := by
  intro p hp
  obtain ⟨i, j⟩ := p
  rw [mem_boxIdx] at hp
  have h1 := boxBase_le6 row hr
  have h2 := boxBase_le6 col hc
  constructor <;> [skip; skip] <;> simp only [] <;> omega

theorem boxIdx_nodup : ∀ r, r < 9 → ∀ c, c < 9 →
    (boxIdx (boxBase r) (boxBase c)).Nodup := by decide

theorem boxIdx_mem_iff {row col i j : Nat} (hr : row < 9) (hc : col < 9)
    (hi : i < 9) (hj : j < 9) :
    (i, j) ∈ boxIdx (boxBase row) (boxBase col) ↔
      (boxBase i = boxBase row ∧ boxBase j = boxBase col) := by
  rw [mem_boxIdx, boxBase_eq row hr, boxBase_eq col hc, boxBase_eq i hi, boxBase_eq j hj]
  omega

theorem boxIdx_self_mem {row col : Nat} (hr : row < 9) (hc : col < 9) :
    (row, col) ∈ boxIdx (boxBase row) (boxBase col) := by
  rw [mem_boxIdx]
  have h1 := boxBase_bounds row hr
  have h2 := boxBase_bounds col hc
  omega

theorem updateDomains_shape {b : Board} (hd : Dims b) {row col : Nat}
    (hrow : row < 9) (hcol : col < 9) :
    Dims (updateDomains b row col).1 ∧
    ∀ i j : Nat, ∃ d : List Int,
      cellAt (updateDomains b row col).1 i j = { cellAt b i j with domain := d } ∧
      (d.Sublist ((cellAt b i j).domain) ∨
        (i = row ∧ j = col ∧ d = [(cellAt b row col).value] ∧ (cellAt b row col).value ≠ 0)) := by
  simp only [updateDomains]
  split
  · exact ⟨hd, fun i j => ⟨(cellAt b i j).domain, rfl, Or.inl (List.Sublist.refl _)⟩⟩
  · next hv =>
      have hd0 : Dims (setDomain b row col [(cellAt b row col).value]) :=
        dims_setDomain hd row col _
      have hs0 : ∀ i j : Nat, ∃ d : List Int,
          cellAt (setDomain b row col [(cellAt b row col).value]) i j
            = { cellAt b i j with domain := d } ∧
          (d.Sublist ((cellAt b i j).domain) ∨
            (i = row ∧ j = col ∧ d = [(cellAt b row col).value] ∧
              (cellAt b row col).value ≠ 0)) := by
        intro i j
        rw [cellAt_setDomain hd hrow hcol _ i j]
        split
        · next h =>
            obtain ⟨h1, h2⟩ := h; subst h1; subst h2
            exact ⟨_, rfl, Or.inr ⟨rfl, rfl, rfl, hv⟩⟩
        · exact ⟨(cellAt b i j).domain, rfl, Or.inl (List.Sublist.refl _)⟩
      have hcomp : ∀ bz : Board,
          DomShrink (setDomain b row col [(cellAt b row col).value]) bz →
          ∀ i j : Nat, ∃ d : List Int,
            cellAt bz i j = { cellAt b i j with domain := d } ∧
            (d.Sublist ((cellAt b i j).domain) ∨
              (i = row ∧ j = col ∧ d = [(cellAt b row col).value] ∧
                (cellAt b row col).value ≠ 0)) := by
        intro bz hsh i j
        obtain ⟨d0, e0, s0⟩ := hs0 i j
        obtain ⟨d1, e1, s1⟩ := hsh i j
        refine ⟨d1, by rw [e1, e0], ?_⟩
        rw [e0] at s1
        rcases s0 with hsub | hexc
        · exact Or.inl (List.Sublist.trans s1 hsub)
        · have hone : d1.Sublist [(cellAt b row col).value] := hexc.2.2.1 ▸ s1
          rcases List.sublist_singleton.mp hone with h0 | h1
          · subst h0; exact Or.inl (List.nil_sublist _)
          · exact Or.inr ⟨hexc.1, hexc.2.1, h1, hexc.2.2.2⟩
      have hrc := rcLoop_shape row col (cellAt b row col).value hrow hcol
        (List.range b.length) (setDomain b row col [(cellAt b row col).value]) hd0
        (fun i2 hi2 => by rw [List.mem_range, hd.1] at hi2; exact hi2)
      rcases hrcv : rcLoop row col (cellAt b row col).value (List.range b.length)
          (setDomain b row col [(cellAt b row col).value]) with ⟨b1, flag⟩
      rw [hrcv] at hrc
      cases flag with
      | false => exact ⟨hrc.1, hcomp b1 hrc.2⟩
      | true =>
          have hbox := boxLoop_shape row col (cellAt b row col).value
            (boxIdx (boxBase row) (boxBase col)) b1 hrc.1 (boxIdx_bounds hrow hcol)
          exact ⟨hbox.1, hcomp _ (domShrink_trans hrc.2 hbox.2)⟩

/-! ### Precise description of the row/column pruning loop -/

theorem rcLoop_spec (row col : Nat) (v : Int) (hrow : row < 9) (hcol : col < 9) :
    ∀ (is : List Nat) (b : Board), Dims b → (∀ i ∈ is, i < 9) → is.Nodup →
      (cellAt b row col).domain ≠ [] →
      ((∀ i2 j2 : Nat, ¬(i2 = row ∧ j2 ∈ is ∧ j2 ≠ col) →
          ¬(j2 = col ∧ i2 ∈ is ∧ i2 ≠ row) →
          cellAt (rcLoop row col v is b).1 i2 j2 = cellAt b i2 j2) ∧
      ((rcLoop row col v is b).2 = true → ∀ i ∈ is,
        (i ≠ col → cellAt (rcLoop row col v is b).1 row i =
          { cellAt b row i with domain := ((cellAt b row i).domain).erase v }) ∧
        (i ≠ row → cellAt (rcLoop row col v is b).1 i col =
          { cellAt b i col with domain := ((cellAt b i col).domain).erase v }) ∧
        (cellAt (rcLoop row col v is b).1 row i).domain ≠ [] ∧
        (cellAt (rcLoop row col v is b).1 i col).domain ≠ []) ∧
      ((rcLoop row col v is b).2 = false → ∃ i ∈ is,
        (i ≠ col ∧ (cellAt (rcLoop row col v is b).1 row i).domain = []) ∨
        (i ≠ row ∧ (cellAt (rcLoop row col v is b).1 i col).domain = []))) := by
  intro is
  induction is with
  | nil =>
      intro b _ _ _ _
      refine ⟨fun i2 j2 _ _ => rfl, ?_, ?_⟩
      · intro _ i hi; exact absurd hi (List.not_mem_nil i)
      · intro h; exact Bool.noConfusion h
  | cons i rest ih =>
      intro b hd hbound hnd hne
      have hi9 : i < 9 := hbound i (List.mem_cons_self ..)
      obtain ⟨hnotmem, hndrest⟩ := List.nodup_cons.mp hnd
      simp only [rcLoop]
      set b1 := if i ≠ col then eraseAt b row i v else b with hb1
      set b2 := if i ≠ row then eraseAt b1 i col v else b1 with hb2
      have hd1 : Dims b1 := hb1 ▸ dims_ite_eraseAt hd row i v _
      have hd2 : Dims b2 := hb2 ▸ dims_ite_eraseAt hd1 i col v _
      have hf1 : ∀ i2 j2 : Nat, ¬(i2 = row ∧ j2 = i ∧ i ≠ col) →
          cellAt b1 i2 j2 = cellAt b i2 j2 := by
        intro i2 j2 h
        rw [hb1]
        split
        · next hic =>
            rw [cellAt_eraseAt hd hrow hi9 v i2 j2,
              if_neg (fun hc => h ⟨hc.1, hc.2, hic⟩)]
        · rfl
      have hf2 : ∀ i2 j2 : Nat, ¬(i2 = i ∧ j2 = col ∧ i ≠ row) →
          cellAt b2 i2 j2 = cellAt b1 i2 j2 := by
        intro i2 j2 h
        rw [hb2]
        split
        · next hir =>
            rw [cellAt_eraseAt hd1 hi9 hcol v i2 j2,
              if_neg (fun hc => h ⟨hc.1, hc.2, hir⟩)]
        · rfl
      have hfhead : ∀ i2 j2 : Nat, ¬(i2 = row ∧ j2 = i ∧ i ≠ col) →
          ¬(i2 = i ∧ j2 = col ∧ i ≠ row) → cellAt b2 i2 j2 = cellAt b i2 j2 := by
        intro i2 j2 h1 h2
        rw [hf2 i2 j2 h2, hf1 i2 j2 h1]
      have hrcsame : cellAt b2 row col = cellAt b row col := by
        apply hfhead
        · rintro ⟨_, h2, h3⟩; exact h3 h2.symm
        · rintro ⟨h1, _, h3⟩; exact h3 h1.symm
      have hne2 : (cellAt b2 row col).domain ≠ [] := by rw [hrcsame]; exact hne
      have hcellrow : i ≠ col → cellAt b2 row i =
          { cellAt b row i with domain := ((cellAt b row i).domain).erase v } := by
        intro hic
        have e1 : cellAt b1 row i =
            { cellAt b row i with domain := ((cellAt b row i).domain).erase v } := by
          rw [hb1, if_pos hic, cellAt_eraseAt hd hrow hi9 v row i, if_pos ⟨rfl, rfl⟩]
        rw [hf2 row i (fun hc => hic hc.2.1), e1]
      have hcolb1 : i ≠ row → cellAt b1 i col = cellAt b i col := by
        intro hir
        apply hf1
        rintro ⟨h1, _, _⟩; exact hir h1
      have hcellcol : i ≠ row → cellAt b2 i col =
          { cellAt b i col with domain := ((cellAt b i col).domain).erase v } := by
        intro hir
        rw [hb2, if_pos hir, cellAt_eraseAt hd1 hi9 hcol v i col, if_pos ⟨rfl, rfl⟩,
          hcolb1 hir]
      split
      · next hstop =>
          refine ⟨?_, ?_, ?_⟩
          · intro i2 j2 h1 h2
            apply hfhead
            · rintro ⟨e1, e2, e3⟩
              subst e2
              exact h1 ⟨e1, List.mem_cons_self .., e3⟩
            · rintro ⟨e1, e2, e3⟩
              subst e1
              exact h2 ⟨e2, List.mem_cons_self .., e3⟩
          · intro htrue; exact Bool.noConfusion htrue
          · intro _
            refine ⟨i, List.mem_cons_self .., ?_⟩
            rcases hstop with hrowstop | hcolstop
            · have hemp : (cellAt b2 row i).domain = [] := List.length_eq_zero.mp hrowstop
              have hic : i ≠ col := by
                intro hic; subst hic
                exact hne2 hemp
              exact Or.inl ⟨hic, hemp⟩
            · have hemp : (cellAt b2 i col).domain = [] := List.length_eq_zero.mp hcolstop
              have hir : i ≠ row := by
                intro hir; subst hir
                exact hne2 hemp
              exact Or.inr ⟨hir, hemp⟩
      · next hpass =>
          push_neg at hpass
          obtain ⟨ihframe, ihsucc, ihfail⟩ :=
            ih b2 hd2 (fun q hq => hbound q (List.mem_cons_of_mem _ hq)) hndrest hne2
          refine ⟨?_, ?_, ?_⟩
          · intro i2 j2 h1 h2
            rw [ihframe i2 j2
              (fun hc => h1 ⟨hc.1, List.mem_cons_of_mem _ hc.2.1, hc.2.2⟩)
              (fun hc => h2 ⟨hc.1, List.mem_cons_of_mem _ hc.2.1, hc.2.2⟩)]
            apply hfhead
            · rintro ⟨e1, e2, e3⟩
              subst e2
              exact h1 ⟨e1, List.mem_cons_self .., e3⟩
            · rintro ⟨e1, e2, e3⟩
              subst e1
              exact h2 ⟨e2, List.mem_cons_self .., e3⟩
          · intro htrue i2 hi2
            rcases List.mem_cons.mp hi2 with rfl | hmem
            · have hfinrow : cellAt (rcLoop row col v rest b2).1 row i2 = cellAt b2 row i2 := by
                apply ihframe
                · rintro ⟨e1, e2, e3⟩; exact hnotmem e2
                · rintro ⟨e1, e2, e3⟩; exact e3 rfl
              have hfincol : cellAt (rcLoop row col v rest b2).1 i2 col = cellAt b2 i2 col := by
                apply ihframe
                · rintro ⟨e1, e2, e3⟩; exact e3 rfl
                · rintro ⟨e1, e2, e3⟩; exact hnotmem e2
              refine ⟨?_, ?_, ?_, ?_⟩
              · intro hic; rw [hfinrow]; exact hcellrow hic
              · intro hir; rw [hfincol]; exact hcellcol hir
              · rw [hfinrow]
                intro hc; exact hpass.1 (by rw [hc]; rfl)
              · rw [hfincol]
                intro hc; exact hpass.2 (by rw [hc]; rfl)
            · have hs := ihsucc htrue i2 hmem
              refine ⟨?_, ?_, hs.2.2.1, hs.2.2.2⟩
              · intro hic
                rw [hs.1 hic]
                have heq : cellAt b2 row i2 = cellAt b row i2 := by
                  apply hfhead
                  · rintro ⟨e1, e2, e3⟩; exact hnotmem (e2 ▸ hmem)
                  · rintro ⟨e1, e2, e3⟩; exact hic e2
                rw [heq]
              · intro hir
                rw [hs.2.1 hir]
                have heq : cellAt b2 i2 col = cellAt b i2 col := by
                  apply hfhead
                  · rintro ⟨e1, e2, e3⟩; exact e3 e2.symm
                  · rintro ⟨e1, e2, e3⟩; exact hnotmem (e1 ▸ hmem)
                rw [heq]
          · intro hfalse
            obtain ⟨i2, hi2, hcase⟩ := ihfail hfalse
            exact ⟨i2, List.mem_cons_of_mem _ hi2, hcase⟩

/-! ### Precise description of the box pruning loop -/

theorem boxLoop_spec (row col : Nat) (v : Int) :
    ∀ (ps : List (Nat × Nat)) (b : Board), Dims b →
      (∀ p ∈ ps, p.1 < 9 ∧ p.2 < 9) → ps.Nodup →
      (cellAt b row col).domain ≠ [] →
      ((∀ i2 j2 : Nat, ((i2, j2) ∉ ps ∨ (i2 = row ∧ j2 = col)) →
          cellAt (boxLoop row col v ps b).1 i2 j2 = cellAt b i2 j2) ∧
      ((boxLoop row col v ps b).2 = true → ∀ p ∈ ps,
        (¬(p.1 = row ∧ p.2 = col) → cellAt (boxLoop row col v ps b).1 p.1 p.2 =
          { cellAt b p.1 p.2 with domain := ((cellAt b p.1 p.2).domain).erase v }) ∧
        (cellAt (boxLoop row col v ps b).1 p.1 p.2).domain ≠ []) ∧
      ((boxLoop row col v ps b).2 = false → ∃ p ∈ ps,
        ¬(p.1 = row ∧ p.2 = col) ∧
        (cellAt (boxLoop row col v ps b).1 p.1 p.2).domain = [])) := by
  intro ps
  induction ps with
  | nil =>
      intro b _ _ _ _
      refine ⟨fun i2 j2 _ => rfl, ?_, ?_⟩
      · intro _ p hp; exact absurd hp (List.not_mem_nil p)
      · intro h; exact Bool.noConfusion h
  | cons p rest ih =>
      obtain ⟨i, j⟩ := p
      intro b hd hbound hnd hne
      have hij : i < 9 ∧ j < 9 := hbound (i, j) (List.mem_cons_self ..)
      obtain ⟨hnotmem, hndrest⟩ := List.nodup_cons.mp hnd
      simp only [boxLoop]
      set b1 := if ¬(i = row ∧ j = col) then eraseAt b i j v else b with hb1
      have hd1 : Dims b1 := hb1 ▸ dims_ite_eraseAt hd i j v _
      have hf1 : ∀ i2 j2 : Nat, ¬(i2 = i ∧ j2 = j ∧ ¬(i = row ∧ j = col)) →
          cellAt b1 i2 j2 = cellAt b i2 j2 := by
        intro i2 j2 h
        rw [hb1]
        split
        · next hskip =>
            rw [cellAt_eraseAt hd hij.1 hij.2 v i2 j2,
              if_neg (fun hc => h ⟨hc.1, hc.2, hskip⟩)]
        · rfl
      have hrcsame : cellAt b1 row col = cellAt b row col := by
        apply hf1
        rintro ⟨e1, e2, e3⟩
        exact e3 ⟨e1.symm, e2.symm⟩
      have hne1 : (cellAt b1 row col).domain ≠ [] := by rw [hrcsame]; exact hne
      have hcell : ¬(i = row ∧ j = col) → cellAt b1 i j =
          { cellAt b i j with domain := ((cellAt b i j).domain).erase v } := by
        intro hskip
        rw [hb1, if_pos hskip, cellAt_eraseAt hd hij.1 hij.2 v i j, if_pos ⟨rfl, rfl⟩]
      split
      · next hstop =>
          refine ⟨?_, ?_, ?_⟩
          · intro i2 j2 h
            apply hf1
            rintro ⟨e1, e2, e3⟩
            subst e1; subst e2
            rcases h with hnm | hrc
            · exact hnm (List.mem_cons_self ..)
            · exact e3 hrc
          · intro htrue; exact Bool.noConfusion htrue
          · intro _
            have hemp : (cellAt b1 i j).domain = [] := List.length_eq_zero.mp hstop
            have hskip : ¬(i = row ∧ j = col) := by
              rintro ⟨e1, e2⟩
              subst e1; subst e2
              exact hne1 hemp
            exact ⟨(i, j), List.mem_cons_self .., hskip, hemp⟩
      · next hpass =>
          obtain ⟨ihframe, ihsucc, ihfail⟩ :=
            ih b1 hd1 (fun q hq => hbound q (List.mem_cons_of_mem _ hq)) hndrest hne1
          refine ⟨?_, ?_, ?_⟩
          · intro i2 j2 h
            have hrest : (i2, j2) ∉ rest ∨ (i2 = row ∧ j2 = col) := by
              rcases h with hnm | hrc
              · exact Or.inl (fun hc => hnm (List.mem_cons_of_mem _ hc))
              · exact Or.inr hrc
            rw [ihframe i2 j2 hrest]
            apply hf1
            rintro ⟨e1, e2, e3⟩
            subst e1; subst e2
            rcases h with hnm | hrc
            · exact hnm (List.mem_cons_self ..)
            · exact e3 hrc
          · intro htrue q hq
            rcases List.mem_cons.mp hq with rfl | hmem
            · have hfin : cellAt (boxLoop row col v rest b1).1 i j = cellAt b1 i j := by
                apply ihframe
                exact Or.inl hnotmem
              refine ⟨?_, ?_⟩
              · intro hskip; rw [hfin]; exact hcell hskip
              · rw [hfin]
                intro hc; exact hpass (by rw [hc]; rfl)
            · have hs := ihsucc htrue q hmem
              refine ⟨?_, hs.2⟩
              intro hskip
              rw [hs.1 hskip]
              have heq : cellAt b1 q.1 q.2 = cellAt b q.1 q.2 := by
                apply hf1
                rintro ⟨e1, e2, e3⟩
                have : q = (i, j) := by
                  obtain ⟨q1, q2⟩ := q
                  simp only [] at e1 e2
                  rw [e1, e2]
                exact hnotmem (this ▸ hmem)
              rw [heq]
          · intro hfalse
            obtain ⟨q, hq, hcase⟩ := ihfail hfalse
            exact ⟨q, List.mem_cons_of_mem _ hq, hcase⟩

/-! ### Full description of `updateDomains` on a nonzero cell -/

theorem updateDomains_spec {b : Board} (hd : Dims b) {row col : Nat}
    (hrow : row < 9) (hcol : col < 9) (hv : (cellAt b row col).value ≠ 0) :
    ((updateDomains b row col).2 = true →
      cellAt (updateDomains b row col).1 row col =
        { cellAt b row col with domain := [(cellAt b row col).value] } ∧
      ∀ i j : Nat, i < 9 → j < 9 → isPeer row col i j →
        (cellAt (updateDomains b row col).1 i j).domain ≠ [] ∧
        (((cellAt b i j).domain).Nodup →
          (cellAt b row col).value ∉ (cellAt (updateDomains b row col).1 i j).domain)) ∧
    ((updateDomains b row col).2 = false →
      ∃ i j : Nat, i < 9 ∧ j < 9 ∧ isPeer row col i j ∧
        (cellAt (updateDomains b row col).1 i j).domain = []) := by
  simp only [updateDomains]
  split
  · next h0 => exact absurd h0 hv
  · next =>
      set b0 := setDomain b row col [(cellAt b row col).value] with hb0
      have hd0 : Dims b0 := hb0 ▸ dims_setDomain hd row col _
      have hb0self : cellAt b0 row col =
          { cellAt b row col with domain := [(cellAt b row col).value] } := by
        rw [hb0, cellAt_setDomain hd hrow hcol _ row col, if_pos ⟨rfl, rfl⟩]
      have hb0other : ∀ i j : Nat, ¬(i = row ∧ j = col) → cellAt b0 i j = cellAt b i j := by
        intro i j h
        rw [hb0, cellAt_setDomain hd hrow hcol _ i j, if_neg h]
      have hne0 : (cellAt b0 row col).domain ≠ [] := by
        rw [hb0self]
        intro hc; exact List.noConfusion hc
      have hbounds : ∀ q ∈ List.range b.length, q < 9 := by
        intro q hq; rw [List.mem_range, hd.1] at hq; exact hq
      have hrc := rcLoop_spec row col (cellAt b row col).value hrow hcol
        (List.range b.length) b0 hd0 hbounds (List.nodup_range _) hne0
      have hshape := rcLoop_shape row col (cellAt b row col).value hrow hcol
        (List.range b.length) b0 hd0 hbounds
      have hmemrange : ∀ q : Nat, q < 9 → q ∈ List.range b.length := by
        intro q hq; rw [List.mem_range, hd.1]; exact hq
      rcases hrcv : rcLoop row col (cellAt b row col).value (List.range b.length) b0
        with ⟨brc, flag⟩
      rw [hrcv] at hrc hshape
      obtain ⟨hframe, hsucc, hfail⟩ := hrc
      cases flag with
      | false =>
          constructor
          · intro htrue; exact Bool.noConfusion htrue
          · intro _
            obtain ⟨i, hi, hcase⟩ := hfail rfl
            have hi9 : i < 9 := hbounds i hi
            rcases hcase with ⟨hic, hemp⟩ | ⟨hir, hemp⟩
            · exact ⟨row, i, hrow, hi9, ⟨fun hc => hic hc.2, Or.inl rfl⟩, hemp⟩
            · exact ⟨i, col, hi9, hcol, ⟨fun hc => hir hc.1, Or.inr (Or.inl rfl)⟩, hemp⟩
      | true =>
          have hrcsame : cellAt brc row col = cellAt b0 row col := by
            apply hframe
            · rintro ⟨_, _, hc⟩; exact hc rfl
            · rintro ⟨_, _, hc⟩; exact hc rfl
          have hnebrc : (cellAt brc row col).domain ≠ [] := by
            rw [hrcsame]; exact hne0
          have hbox := boxLoop_spec row col (cellAt b row col).value
            (boxIdx (boxBase row) (boxBase col)) brc hshape.1
            (boxIdx_bounds hrow hcol) (boxIdx_nodup row hrow col hcol) hnebrc
          obtain ⟨hbframe, hbsucc, hbfail⟩ := hbox
          constructor
          · intro htrue
            constructor
            · have h1 : cellAt (boxLoop row col (cellAt b row col).value
                  (boxIdx (boxBase row) (boxBase col)) brc).1 row col =
                  cellAt brc row col := hbframe row col (Or.inr ⟨rfl, rfl⟩)
              rw [h1, hrcsame, hb0self]
            · intro i j hi hj hpeer
              by_cases hmem : (i, j) ∈ boxIdx (boxBase row) (boxBase col)
              · have hb := hbsucc htrue (i, j) hmem
                have hskip : ¬(i = row ∧ j = col) := hpeer.1
                refine ⟨hb.2, ?_⟩
                intro hnodup
                rw [hb.1 hskip]
                obtain ⟨d, hde, hds⟩ := hshape.2 i j
                have hb0ij : cellAt b0 i j = cellAt b i j := hb0other i j hskip
                rw [hb0ij] at hde hds
                rw [hde]
                have hdnodup : d.Nodup := List.Sublist.nodup hds hnodup
                intro hcmem
                rw [List.Nodup.mem_erase_iff hdnodup] at hcmem
                exact hcmem.1 rfl
              · have hpeer2 : i = row ∨ j = col := by
                  rcases hpeer.2 with h | h | h
                  · exact Or.inl h
                  · exact Or.inr h
                  · exact absurd ((boxIdx_mem_iff hrow hcol hi hj).mpr h) hmem
                rcases hpeer2 with rfl | rfl
                · -- row peer, outside the box
                  have hjc : j ≠ col := fun hc => hpeer.1 ⟨rfl, hc⟩
                  have hfin : cellAt (boxLoop i col (cellAt b i col).value
                      (boxIdx (boxBase i) (boxBase col)) brc).1 i j =
                      cellAt brc i j := hbframe i j (Or.inl hmem)
                  have hs := hsucc rfl j (hmemrange j hj)
                  refine ⟨?_, ?_⟩
                  · rw [hfin]; exact hs.2.2.1
                  · intro hnodup
                    rw [hfin, hs.1 hjc, hb0other i j (fun hc => hjc hc.2)]
                    intro hcmem
                    rw [List.Nodup.mem_erase_iff hnodup] at hcmem
                    exact hcmem.1 rfl
                · -- column peer, outside the box
                  have hir : i ≠ row := fun hc => hpeer.1 ⟨hc, rfl⟩
                  have hfin : cellAt (boxLoop row j (cellAt b row j).value
                      (boxIdx (boxBase row) (boxBase j)) brc).1 i j =
                      cellAt brc i j := hbframe i j (Or.inl hmem)
                  have hs := hsucc rfl i (hmemrange i hi)
                  refine ⟨?_, ?_⟩
                  · rw [hfin]; exact hs.2.2.2
                  · intro hnodup
                    rw [hfin, hs.2.1 hir, hb0other i j (fun hc => hir hc.1)]
                    intro hcmem
                    rw [List.Nodup.mem_erase_iff hnodup] at hcmem
                    exact hcmem.1 rfl
          · intro hfalse
            obtain ⟨q, hq, hskip, hemp⟩ := hbfail hfalse
            have hqb := boxIdx_bounds hrow hcol q hq
            have hbase := (boxIdx_mem_iff hrow hcol hqb.1 hqb.2).mp (by
              obtain ⟨q1, q2⟩ := q; exact hq)
            exact ⟨q.1, q.2, hqb.1, hqb.2, ⟨hskip, Or.inr (Or.inr hbase)⟩, hemp⟩

/-! ### Claims C3 and C6 -/

/-- Claim C3, as stated, is false: `updateDomains` can return with a peer
still holding the assigned value in its domain.  On `c3Board`, cell `(0,0)`
holds 5 and propagation short-circuits as soon as it empties peer `(0,1)`'s
domain, so the later row-peer `(0,2)` still has 5 in its domain when
`updateDomains` returns. -/
theorem c3_counterexample :
    (cellAt c3Board 0 0).value = 5 ∧
    (updateDomains c3Board 0 0).2 = false ∧
    isPeer 0 0 0 2 ∧
    (5 : Int) ∈ (cellAt (updateDomains c3Board 0 0).1 0 2).domain := by decide

/-- Claim C3 (amended): for every 9×9 board whose domains are duplicate-free
sets, and every cell `(row, col)` holding a nonzero value `v`, if
`updateDomains(board, row, col)` returns `true`, then the cell's domain is
exactly the singleton `[v]` and no peer cell retains `v` in its domain. -/
theorem c3_amended_theorem {b : Board} (hd : Dims b) (hnd : NodupDoms b) {row col : Nat}
    (hrow : row < 9) (hcol : col < 9) (hv : (cellAt b row col).value ≠ 0)
    (hsucc : (updateDomains b row col).2 = true) :
    (cellAt (updateDomains b row col).1 row col).domain = [(cellAt b row col).value] ∧
    ∀ i j : Nat, i < 9 → j < 9 → isPeer row col i j →
      (cellAt b row col).value ∉ (cellAt (updateDomains b row col).1 i j).domain := by
  have h := (updateDomains_spec hd hrow hcol hv).1 hsucc
  refine ⟨by rw [h.1], ?_⟩
  intro i j hi hj hpeer
  exact (h.2 i j hi hj hpeer).2 (hnd i hi j hj)

/-- Witness for C3 (amended) at the concrete board `c3SuccBoard`, where
`(2,3)` holds 7: propagation succeeds, the cell's domain becomes `[7]`, and
the row-peer `(2,5)` no longer has 7 in its domain. -/
theorem c3_witness :
    (cellAt (updateDomains c3SuccBoard 2 3).1 2 3).domain = [7] ∧
    (7 : Int) ∉ (cellAt (updateDomains c3SuccBoard 2 3).1 2 5).domain := by
  have hval : (cellAt c3SuccBoard 2 3).value = 7 := by decide
  have h := @c3_amended_theorem c3SuccBoard (by decide) (by decide) 2 3
    (by decide) (by decide) (by decide) (by decide)
  exact ⟨h.1.trans (by rw [hval]), hval ▸ h.2 2 5 (by decide) (by decide) (by decide)⟩

/-- Claim C6: for every 9×9 board and cell `(row, col)` holding a nonzero
value, `updateDomains` returns `true` if and only if, after its pruning,
every row-, column- and box-peer of `(row, col)` has a nonempty domain
(equivalently, it returns `false` exactly when some peer's domain is
empty). -/
theorem c6_theorem {b : Board} (hd : Dims b) {row col : Nat}
    (hrow : row < 9) (hcol : col < 9) (hv : (cellAt b row col).value ≠ 0) :
    (updateDomains b row col).2 = true ↔
      ∀ i j : Nat, i < 9 → j < 9 → isPeer row col i j →
        (cellAt (updateDomains b row col).1 i j).domain ≠ [] := by
  have h := updateDomains_spec hd hrow hcol hv
  constructor
  · intro htrue i j hi hj hpeer
    exact ((h.1 htrue).2 i j hi hj hpeer).1
  · intro hall
    cases hb : (updateDomains b row col).2 with
    | false =>
        obtain ⟨i, j, hi, hj, hpeer, hemp⟩ := h.2 hb
        exact absurd hemp (hall i j hi hj hpeer)
    | true => rfl

/-- Witness for C6 at the concrete board `c6Board` (`(4,4)` holds 9):
propagation succeeds and, as the equivalence requires, the peer `(4,7)`
keeps a nonempty domain. -/
theorem c6_witness : (cellAt (updateDomains c6Board 4 4).1 4 7).domain ≠ [] :=
  (c6_theorem (b := c6Board) (by decide) (by decide) (by decide) (by decide)).mp
    (by decide) 4 7 (by decide) (by decide) (by decide)

/-! ### Claims C1 and C2: the solver accepts contradictory grids (code bug) -/

/-- Claim C1 fails on the code: on the all-1s grid (a full grid violating
every row constraint) `solve` returns `failure = false` and the unchanged
all-1s grid, which is not a valid solution.  `backtrack` returns any full
board immediately without validation, and `solve` discards the result of
`updateAllDomains` (which did detect the contradiction). -/
theorem c1_bug_evidence :
    (solveInput onesGrid).map (fun r => r.failure) = some false ∧
    (solveInput onesGrid).map (fun r => valuesOf r.squares) = some onesGrid ∧
    ¬ validCompleteValues onesGrid := by decide

/-- Claim C2 fails on the code: `nearOnesGrid` is well-formed, not full, and
has two equal nonzero values in one row, yet `solve` returns
`failure = false` (it fills the one empty cell and succeeds, because the
partial domain-seeding pass stopped at the first contradiction and left the
last cell's domain intact). -/
theorem c2_bug_evidence :
    gridWF nearOnesGrid ∧
    hasDupPair nearOnesGrid ∧
    ¬ gridFull nearOnesGrid ∧
    (solveInput nearOnesGrid).map (fun r => r.failure) = some false := by decide

/-! ### Board scanning: `isFull`, `getEmptySquare`, `zeroCount` -/

theorem mem_rowMajor {n i j : Nat} : (i, j) ∈ rowMajor n ↔ i < n ∧ j < n := by
  simp [rowMajor, List.mem_flatMap, List.mem_map, List.mem_range]

theorem length_rowMajor9 : (rowMajor 9).length = 81 := by decide

theorem nodup_rowMajor9 : (rowMajor 9).Nodup := by decide

theorem isFull_true_iff {b : Board} (hd : Dims b) :
    isFull b = true ↔ ∀ i, i < 9 → ∀ j, j < 9 → (cellAt b i j).value ≠ 0 := by
  unfold isFull
  rw [hd.1, List.all_eq_true]
  constructor
  · intro h i hi j hj
    have h1 := h i (by rw [List.mem_range]; exact hi)
    rw [List.all_eq_true] at h1
    have h2 := h1 j (by rw [List.mem_range]; exact hj)
    exact bne_iff_ne.mp h2
  · intro h i hi
    rw [List.all_eq_true]
    intro j hj
    rw [List.mem_range] at hi hj
    exact bne_iff_ne.mpr (h i hi j hj)

theorem isFull_false_exists {b : Board} (hd : Dims b) (hnf : isFull b = false) :
    ∃ i j : Nat, i < 9 ∧ j < 9 ∧ (cellAt b i j).value = 0 := by
  by_contra hc
  push_neg at hc
  have : isFull b = true := (isFull_true_iff hd).mpr (fun i hi j hj => hc i j hi hj)
  rw [this] at hnf
  exact Bool.noConfusion hnf

theorem gesLoop_spec (b : Board) : ∀ ps : List (Nat × Nat),
    (∃ p ∈ ps, (cellAt b p.1 p.2).value = 0) →
    ∃ p ∈ ps, (cellAt b p.1 p.2).value = 0 ∧ gesLoop b ps = cellAt b p.1 p.2 := by
  intro ps
  induction ps with
  | nil => rintro ⟨p, hp, _⟩; exact absurd hp (List.not_mem_nil p)
  | cons q rest ih =>
      obtain ⟨i, j⟩ := q
      intro hex
      simp only [gesLoop]
      split
      · next hz => exact ⟨(i, j), List.mem_cons_self .., hz, rfl⟩
      · next hnz =>
          have hex2 : ∃ p ∈ rest, (cellAt b p.1 p.2).value = 0 := by
            obtain ⟨p, hp, hz⟩ := hex
            rcases List.mem_cons.mp hp with rfl | hmem
            · exact absurd hz hnz
            · exact ⟨p, hmem, hz⟩
          obtain ⟨p, hp, hz, he⟩ := ih hex2
          exact ⟨p, List.mem_cons_of_mem _ hp, hz, he⟩

/-- On a non-full 9×9 board with correct stored coordinates, `getEmptySquare`
returns a square of the board whose value is 0 and whose stored coordinates
(converted by `toNat` as `backtrack` does) index that square. -/
theorem getEmptySquare_spec {b : Board} (hd : Dims b) (hco : Coords b)
    (hnf : isFull b = false) :
    ∃ i j : Nat, i < 9 ∧ j < 9 ∧ getEmptySquare b = cellAt b i j ∧
      (cellAt b i j).value = 0 ∧
      (getEmptySquare b).row.toNat = i ∧ (getEmptySquare b).col.toNat = j := by
  obtain ⟨i0, j0, hi0, hj0, hz0⟩ := isFull_false_exists hd hnf
  have hex : ∃ p ∈ rowMajor b.length, (cellAt b p.1 p.2).value = 0 := by
    refine ⟨(i0, j0), ?_, hz0⟩
    rw [hd.1, mem_rowMajor]
    exact ⟨hi0, hj0⟩
  obtain ⟨⟨i, j⟩, hp, hz, he⟩ := gesLoop_spec b (rowMajor b.length) hex
  rw [hd.1, mem_rowMajor] at hp
  refine ⟨i, j, hp.1, hp.2, he, hz, ?_, ?_⟩
  · rw [show getEmptySquare b = cellAt b i j from he, (hco i hp.1 j hp.2).1]
    rfl
  · rw [show getEmptySquare b = cellAt b i j from he, (hco i hp.1 j hp.2).2]
    rfl

theorem countP_single_change {α : Type} (p q : α → Bool) :
    ∀ (l : List α) (a : α), l.Nodup → a ∈ l → p a = true → q a = false →
    (∀ x ∈ l, x ≠ a → p x = q x) →
    List.countP q l + 1 = List.countP p l := by
  intro l
  induction l with
  | nil => intro a _ ha; exact absurd ha (List.not_mem_nil a)
  | cons x t ih =>
      intro a hnd ha hpa hqa hrest
      obtain ⟨hxnot, hndt⟩ := List.nodup_cons.mp hnd
      rcases List.mem_cons.mp ha with rfl | hmem
      · have hteq : List.countP p t = List.countP q t := by
          apply List.countP_congr
          intro y hy
          rw [hrest y (List.mem_cons_of_mem _ hy) (fun hc => hxnot (hc ▸ hy))]
        rw [List.countP_cons_of_pos _ _ hpa, List.countP_cons_of_neg _ _ (by simp [hqa]), hteq]
      · have hxa : x ≠ a := fun hc => hxnot (hc ▸ hmem)
        have hx : p x = q x := hrest x (List.mem_cons_self ..) hxa
        have ht := ih a hndt hmem hpa hqa
          (fun y hy hya => hrest y (List.mem_cons_of_mem _ hy) hya)
        cases hpx : p x with
        | true =>
            rw [List.countP_cons_of_pos _ _ hpx,
              List.countP_cons_of_pos _ _ (hx ▸ hpx)]
            omega
        | false =>
            have hqx : q x = false := hx ▸ hpx
            rw [List.countP_cons_of_neg q t (by simp [hqx]),
              List.countP_cons_of_neg p t (by simp [hpx])]
            omega

theorem zeroCount_le_81 (b : Board) : zeroCount b ≤ 81 := by
  unfold zeroCount
  calc (rowMajor 9).countP _ ≤ (rowMajor 9).length := List.countP_le_length _
  _ = 81 := length_rowMajor9

theorem zeroCount_congr {b b2 : Board}
    (h : ∀ i j : Nat, i < 9 → j < 9 → (cellAt b2 i j).value = (cellAt b i j).value) :
    zeroCount b2 = zeroCount b := by
  unfold zeroCount
  apply List.countP_congr
  intro p hp
  obtain ⟨i, j⟩ := p
  rw [mem_rowMajor] at hp
  rw [h i j hp.1 hp.2]

theorem zeroCount_setValue {b : Board} (hd : Dims b) {i j : Nat} (hi : i < 9) (hj : j < 9)
    {v : Int} (hv : v ≠ 0) (hz : (cellAt b i j).value = 0) :
    zeroCount (setValue b i j v) + 1 = zeroCount b := by
  unfold zeroCount
  apply countP_single_change _ _ (rowMajor 9) (i, j) nodup_rowMajor9
    (mem_rowMajor.mpr ⟨hi, hj⟩)
  · rw [beq_iff_eq]
    exact hz
  · rw [cellAt_setValue hd hi hj v i j, if_pos ⟨rfl, rfl⟩]
    exact beq_eq_false_iff_ne.mpr hv
  · intro q hq hqa
    obtain ⟨q1, q2⟩ := q
    rw [cellAt_setValue hd hi hj v q1 q2, if_neg ?_]
    rintro ⟨e1, e2⟩
    exact hqa (by rw [e1, e2])

/-! ### Preservation corollaries -/

theorem updateDomains_dims {b : Board} (hd : Dims b) {row col : Nat}
    (hrow : row < 9) (hcol : col < 9) : Dims (updateDomains b row col).1 :=
  (updateDomains_shape hd hrow hcol).1

theorem updateDomains_cells {b : Board} (hd : Dims b) {row col : Nat}
    (hrow : row < 9) (hcol : col < 9) (i j : Nat) :
    (cellAt (updateDomains b row col).1 i j).value = (cellAt b i j).value ∧
    (cellAt (updateDomains b row col).1 i j).row = (cellAt b i j).row ∧
    (cellAt (updateDomains b row col).1 i j).col = (cellAt b i j).col := by
  obtain ⟨d, hde, _⟩ := (updateDomains_shape hd hrow hcol).2 i j
  rw [hde]
  exact ⟨rfl, rfl, rfl⟩

theorem updateDomains_zeroFree {b : Board} (hd : Dims b) {row col : Nat}
    (hrow : row < 9) (hcol : col < 9) (hz : ZeroFreeDoms b) :
    ZeroFreeDoms (updateDomains b row col).1 := by
  intro i hi j hj
  obtain ⟨d, hde, hds⟩ := (updateDomains_shape hd hrow hcol).2 i j
  rw [hde]
  show (0 : Int) ∉ d
  rcases hds with hsub | ⟨_, _, hdv, hvne⟩
  · intro hm; exact hz i hi j hj (hsub.subset hm)
  · rw [hdv]; intro hm; exact hvne (List.mem_singleton.mp hm).symm

theorem updateDomains_nodupDoms {b : Board} (hd : Dims b) {row col : Nat}
    (hrow : row < 9) (hcol : col < 9) (hn : NodupDoms b) :
    NodupDoms (updateDomains b row col).1 := by
  intro i hi j hj
  obtain ⟨d, hde, hds⟩ := (updateDomains_shape hd hrow hcol).2 i j
  rw [hde]
  show d.Nodup
  rcases hds with hsub | ⟨_, _, hdv, _⟩
  · exact List.Sublist.nodup hsub (hn i hi j hj)
  · rw [hdv]; exact List.nodup_singleton _

theorem setValue_cells {b : Board} (hd : Dims b) {row col : Nat}
    (hrow : row < 9) (hcol : col < 9) (v : Int) (i j : Nat) :
    (cellAt (setValue b row col v) i j).row = (cellAt b i j).row ∧
    (cellAt (setValue b row col v) i j).col = (cellAt b i j).col ∧
    (cellAt (setValue b row col v) i j).domain = (cellAt b i j).domain := by
  rw [cellAt_setValue hd hrow hcol v i j]
  split
  · next h =>
      obtain ⟨h1, h2⟩ := h; subst h1; subst h2
      exact ⟨rfl, rfl, rfl⟩
  · exact ⟨rfl, rfl, rfl⟩

theorem setValue_coords {b : Board} (hd : Dims b) (hco : Coords b) {row col : Nat}
    (hrow : row < 9) (hcol : col < 9) (v : Int) : Coords (setValue b row col v) := by
  intro i hi j hj
  obtain ⟨h1, h2, _⟩ := setValue_cells hd hrow hcol v i j
  rw [h1, h2]
  exact hco i hi j hj

theorem setValue_zeroFree {b : Board} (hd : Dims b) {row col : Nat}
    (hrow : row < 9) (hcol : col < 9) (v : Int) (hz : ZeroFreeDoms b) :
    ZeroFreeDoms (setValue b row col v) := by
  intro i hi j hj
  rw [(setValue_cells hd hrow hcol v i j).2.2]
  exact hz i hi j hj

theorem setValue_nodupDoms {b : Board} (hd : Dims b) {row col : Nat}
    (hrow : row < 9) (hcol : col < 9) (v : Int) (hn : NodupDoms b) :
    NodupDoms (setValue b row col v) := by
  intro i hi j hj
  rw [(setValue_cells hd hrow hcol v i j).2.2]
  exact hn i hi j hj

theorem updateDomains_coords {b : Board} (hd : Dims b) (hco : Coords b) {row col : Nat}
    (hrow : row < 9) (hcol : col < 9) : Coords (updateDomains b row col).1 := by
  intro i hi j hj
  obtain ⟨_, h2, h3⟩ := updateDomains_cells hd hrow hcol i j
  rw [h2, h3]
  exact hco i hi j hj

theorem uadLoop_preserves : ∀ ps : List (Nat × Nat), (∀ p ∈ ps, p.1 < 9 ∧ p.2 < 9) →
    ∀ b : Board, Dims b →
    Dims (uadLoop ps b).1 ∧
    (∀ i j : Nat, (cellAt (uadLoop ps b).1 i j).value = (cellAt b i j).value ∧
      (cellAt (uadLoop ps b).1 i j).row = (cellAt b i j).row ∧
      (cellAt (uadLoop ps b).1 i j).col = (cellAt b i j).col) ∧
    (ZeroFreeDoms b → ZeroFreeDoms (uadLoop ps b).1) ∧
    (NodupDoms b → NodupDoms (uadLoop ps b).1) := by
  intro ps
  induction ps with
  | nil => intro _ b hd; exact ⟨hd, fun i j => ⟨rfl, rfl, rfl⟩, id, id⟩
  | cons q rest ih =>
      obtain ⟨qi, qj⟩ := q
      intro hbound b hd
      have hq : qi < 9 ∧ qj < 9 := hbound (qi, qj) (List.mem_cons_self ..)
      simp only [uadLoop]
      rcases hu : updateDomains b qi qj with ⟨b1, flag⟩
      have hd1 : Dims b1 := by
        have := updateDomains_dims hd hq.1 hq.2; rwa [hu] at this
      have hcells : ∀ i j : Nat, (cellAt b1 i j).value = (cellAt b i j).value ∧
          (cellAt b1 i j).row = (cellAt b i j).row ∧
          (cellAt b1 i j).col = (cellAt b i j).col := by
        intro i j
        have := updateDomains_cells hd hq.1 hq.2 i j; rwa [hu] at this
      have hzf : ZeroFreeDoms b → ZeroFreeDoms b1 := by
        intro hz
        have := updateDomains_zeroFree hd hq.1 hq.2 hz; rwa [hu] at this
      have hndp : NodupDoms b → NodupDoms b1 := by
        intro hn
        have := updateDomains_nodupDoms hd hq.1 hq.2 hn; rwa [hu] at this
      cases flag with
      | false => exact ⟨hd1, hcells, hzf, hndp⟩
      | true =>
          obtain ⟨ihd, ihc, ihz, ihn⟩ :=
            ih (fun p hp => hbound p (List.mem_cons_of_mem _ hp)) b1 hd1
          refine ⟨ihd, ?_, fun hz => ihz (hzf hz), fun hn => ihn (hndp hn)⟩
          intro i j
          obtain ⟨v1, r1, c1⟩ := ihc i j
          obtain ⟨v2, r2, c2⟩ := hcells i j
          exact ⟨v1.trans v2, r1.trans r2, c1.trans c2⟩

theorem updateAllDomains_preserves {b : Board} (hd : Dims b) :
    Dims (updateAllDomains b).1 ∧
    (∀ i j : Nat, (cellAt (updateAllDomains b).1 i j).value = (cellAt b i j).value ∧
      (cellAt (updateAllDomains b).1 i j).row = (cellAt b i j).row ∧
      (cellAt (updateAllDomains b).1 i j).col = (cellAt b i j).col) ∧
    (ZeroFreeDoms b → ZeroFreeDoms (updateAllDomains b).1) ∧
    (NodupDoms b → NodupDoms (updateAllDomains b).1) := by
  unfold updateAllDomains
  exact uadLoop_preserves (rowMajor b.length)
    (fun p hp => by rw [hd.1] at hp; exact mem_rowMajor.mp hp) b hd

/-! ### The candidate loop and claim C8 -/

theorem tryCandidates_success_flag (bt : SudokuCSP → Option SudokuCSP) (sq : Board)
    (row col : Nat) : ∀ (cands : List Int) (r : SudokuCSP),
    tryCandidates bt sq row col cands = some (some r) → r.failure = false := by
  intro cands
  induction cands with
  | nil =>
      intro r h
      simp only [tryCandidates] at h
      exact Option.noConfusion (Option.some.inj h)
  | cons v rest ih =>
      intro r h
      simp only [tryCandidates] at h
      split at h
      · split at h
        · exact Option.noConfusion h
        · next result hbt =>
            split at h
            · next hres =>
                have := Option.some.inj h
                have h2 := Option.some.inj this
                rw [← h2]
                assumption
            · exact ih r h
      · exact ih r h

/-- Claim C8: whenever `backtrack` is handed a non-full board and returns a
failure result (i.e. its candidate loop was exhausted without success), the
returned grid is exactly the board state `backtrack` was entered with — none
of the trial assignments or prunings are visible. -/
theorem c8_theorem {csp : SudokuCSP} (hd : Dims csp.squares) {fuel : Nat} {r : SudokuCSP}
    (hnf : isFull csp.squares = false)
    (hr : backtrack fuel csp = some r) (hfail : r.failure = true) :
    r.squares = csp.squares := by
  cases fuel with
  | zero => exact Option.noConfusion hr
  | succ n =>
      simp only [backtrack] at hr
      split at hr
      · next hfull => rw [hnf] at hfull; exact Bool.noConfusion hfull
      · split at hr
        · exact Option.noConfusion hr
        · next r2 htc =>
            have hr2 : r2.failure = false :=
              tryCandidates_success_flag _ _ _ _ _ r2 htc
            have := Option.some.inj hr
            rw [← this] at hfail
            rw [hfail] at hr2
            exact Bool.noConfusion hr2
        · have := Option.some.inj hr
          rw [← this]
          show (newSudokuCSP csp.squares true).squares = csp.squares
          unfold newSudokuCSP
          exact copySquares_eq_self hd

/-- Witness for C8: on `c8Board` (first empty square `(0,0)` has the single
candidate 5, which fails propagation against the prefilled 5 at `(0,1)`),
`backtrack` exhausts its candidates and returns the entry board with
`failure = true`. -/
theorem c8_witness :
    isFull c8Board = false ∧ c8Res.failure = true ∧ c8Res.squares = c8Board := by
  refine ⟨by decide, by decide, ?_⟩
  exact @c8_theorem ⟨c8Board, false⟩ (by decide) 1 c8Res
    (by decide) (by decide) (by decide)

/-! ### Termination of the search: claim C9 -/

theorem tryCandidates_isSome (bt : SudokuCSP → Option SudokuCSP) {sq : Board}
    (hd : Dims sq) (hco : Coords sq) (hz : ZeroFreeDoms sq)
    {row col : Nat} (hrow : row < 9) (hcol : col < 9)
    (hzv : (cellAt sq row col).value = 0)
    (hbt : ∀ csp : SudokuCSP, Dims csp.squares → Coords csp.squares →
      ZeroFreeDoms csp.squares → zeroCount csp.squares < zeroCount sq →
      (bt csp).isSome = true) :
    ∀ cands : List Int, (∀ v ∈ cands, v ≠ 0) →
      (tryCandidates bt sq row col cands).isSome = true := by
  intro cands
  induction cands with
  | nil => intro _; rfl
  | cons v rest ih =>
      intro hvz
      have hv0 : v ≠ 0 := hvz v (List.mem_cons_self ..)
      simp only [tryCandidates]
      rw [copySquares_eq_self hd]
      rcases hu : updateDomains (setValue sq row col v) row col with ⟨b2, flag⟩
      cases flag with
      | false => exact ih (fun w hw => hvz w (List.mem_cons_of_mem _ hw))
      | true =>
          have hdv : Dims (setValue sq row col v) := dims_setValue hd row col v
          have hd2 : Dims b2 := by
            have := updateDomains_dims hdv hrow hcol; rwa [hu] at this
          have hco2 : Coords b2 := by
            have := updateDomains_coords hdv (setValue_coords hd hco hrow hcol v) hrow hcol
            rwa [hu] at this
          have hz2 : ZeroFreeDoms b2 := by
            have := updateDomains_zeroFree hdv hrow hcol (setValue_zeroFree hd hrow hcol v hz)
            rwa [hu] at this
          have hzc : zeroCount b2 < zeroCount sq := by
            have hcong : zeroCount b2 = zeroCount (setValue sq row col v) := by
              apply zeroCount_congr
              intro i j _ _
              have := (updateDomains_cells hdv hrow hcol i j).1
              rwa [hu] at this
            have hdec := zeroCount_setValue hd hrow hcol hv0 hzv
            omega
          have hnewq : newSudokuCSP b2 false = ⟨b2, false⟩ := by
            unfold newSudokuCSP
            rw [copySquares_eq_self hd2]
          show (match bt (newSudokuCSP b2 false) with
            | none => none
            | some result => if result.failure = false then some (some result)
                else tryCandidates bt sq row col rest).isSome = true
          rw [hnewq]
          have hsome := hbt ⟨b2, false⟩ hd2 hco2 hz2 hzc
          rcases hbtv : bt ⟨b2, false⟩ with _ | result
          · rw [hbtv] at hsome; exact Bool.noConfusion hsome
          · show (if result.failure = false then some (some result)
                else tryCandidates bt sq row col rest).isSome = true
            split
            · rfl
            · exact ih (fun w hw => hvz w (List.mem_cons_of_mem _ hw))

theorem backtrack_isSome : ∀ fuel : Nat, ∀ csp : SudokuCSP,
    Dims csp.squares → Coords csp.squares → ZeroFreeDoms csp.squares →
    zeroCount csp.squares < fuel → (backtrack fuel csp).isSome = true := by
  intro fuel
  induction fuel with
  | zero => intro csp _ _ _ h; exact absurd h (Nat.not_lt_zero _)
  | succ n ih =>
      intro csp hd hco hz hfuel
      simp only [backtrack]
      split
      · rfl
      · next hnf =>
          have hnf2 : isFull csp.squares = false := by
            cases h : isFull csp.squares
            · rfl
            · exact absurd h hnf
          obtain ⟨i0, j0, hi0, hj0, hsq, hzv, hri, hcj⟩ := getEmptySquare_spec hd hco hnf2
          rw [hri, hcj, hsq]
          have hdom0 : ∀ v ∈ (cellAt csp.squares i0 j0).domain, v ≠ 0 := by
            intro v hv hc
            subst hc
            exact hz i0 hi0 j0 hj0 hv
          have hbt : ∀ csp2 : SudokuCSP, Dims csp2.squares → Coords csp2.squares →
              ZeroFreeDoms csp2.squares → zeroCount csp2.squares < zeroCount csp.squares →
              (backtrack n csp2).isSome = true := by
            intro csp2 hd2 hco2 hz2 hlt
            exact ih csp2 hd2 hco2 hz2 (by omega)
          have hts := tryCandidates_isSome (backtrack n) hd hco hz hi0 hj0 hzv hbt
            (cellAt csp.squares i0 j0).domain hdom0
          rcases htc : tryCandidates (backtrack n) csp.squares i0 j0
              (cellAt csp.squares i0 j0).domain with _ | opt
          · rw [htc] at hts; exact Bool.noConfusion hts
          · cases opt with
            | none => rfl
            | some r2 => rfl

/-- Claim C9: on every well-formed board (9×9, squares carry their own
coordinates, no domain contains 0 — true of every board built from an input
grid), the number of empty cells is at most 81 and `backtrack` terminates
within recursion depth `zeroCount + 1`: each recursive call strictly
decreases the number of empty cells, so any fuel exceeding the number of
empty cells yields a result (`isSome`), never fuel exhaustion. -/
theorem c9_theorem {csp : SudokuCSP} (hd : Dims csp.squares) (hco : Coords csp.squares)
    (hz : ZeroFreeDoms csp.squares) :
    zeroCount csp.squares ≤ 81 ∧
    ∀ fuel : Nat, zeroCount csp.squares < fuel → (backtrack fuel csp).isSome = true :=
  ⟨zeroCount_le_81 _, fun fuel hf => backtrack_isSome fuel csp hd hco hz hf⟩

/-- Witness for C9: the completely empty board has 81 empty cells and
`backtrack` with fuel 82 returns a result on it. -/
theorem c9_witness :
    zeroCount emptyCSP.squares ≤ 81 ∧ (backtrack 82 emptyCSP).isSome = true := by
  have h := @c9_theorem emptyCSP (by decide) (by decide) (by decide)
  exact ⟨h.1, h.2 82 (by decide)⟩

/-! ### Values of a board versus the input grid -/

theorem valuesOf_eq_of_cells {b : Board} (hd : Dims b) {g : List (List Int)}
    (hg : gridDims g)
    (h : ∀ i j : Nat, i < 9 → j < 9 → (cellAt b i j).value = gridVal g i j) :
    valuesOf b = g := by
  apply List.ext_getElem
  · simp only [valuesOf, List.length_map]
    rw [hd.1, hg.1]
  · intro i h1 h2
    simp only [valuesOf, List.length_map] at h1
    have hi9 : i < 9 := by rw [← hd.1]; exact h1
    simp only [valuesOf]
    rw [List.getElem_map]
    apply List.ext_getElem
    · rw [List.length_map]
      have hb : b[i].length = 9 := hd.2 _ (List.getElem_mem h1)
      have hgr : g[i].length = 9 := hg.2 _ (List.getElem_mem h2)
      rw [hb, hgr]
    · intro j hj1 hj2
      rw [List.length_map] at hj1
      have hj9 : j < 9 := by rw [← hd.2 _ (List.getElem_mem h1)]; exact hj1
      rw [List.getElem_map]
      have hcell : cellAt b i j = b[i][j] := by
        unfold cellAt
        rw [List.getD_eq_getElem b [] h1, List.getD_eq_getElem _ _ hj1]
      have hgrid : gridVal g i j = g[i][j] := by
        unfold gridVal
        rw [List.getD_eq_getElem g [] h2, List.getD_eq_getElem _ _ hj2]
      rw [← hcell, ← hgrid]
      exact h i j hi9 hj9

/-! ### Fidelity to givens: claim C4 -/

theorem tryCandidates_preserves (bt : SudokuCSP → Option SudokuCSP) {sq : Board}
    (hd : Dims sq) (hco : Coords sq) {row col : Nat}
    (hrow : row < 9) (hcol : col < 9) (hzv : (cellAt sq row col).value = 0)
    (hbt : ∀ csp : SudokuCSP, Dims csp.squares → Coords csp.squares →
      ∀ r2 : SudokuCSP, bt csp = some r2 →
        Dims r2.squares ∧ ∀ i j : Nat, i < 9 → j < 9 →
          (cellAt csp.squares i j).value ≠ 0 →
          (cellAt r2.squares i j).value = (cellAt csp.squares i j).value) :
    ∀ (cands : List Int) (r : SudokuCSP),
      tryCandidates bt sq row col cands = some (some r) →
      Dims r.squares ∧ ∀ i j : Nat, i < 9 → j < 9 → (cellAt sq i j).value ≠ 0 →
        (cellAt r.squares i j).value = (cellAt sq i j).value := by
  intro cands
  induction cands with
  | nil =>
      intro r h
      simp only [tryCandidates] at h
      exact Option.noConfusion (Option.some.inj h)
  | cons v rest ih =>
      intro r h
      simp only [tryCandidates] at h
      rw [copySquares_eq_self hd] at h
      rcases hu : updateDomains (setValue sq row col v) row col with ⟨b2, flag⟩
      rw [hu] at h
      cases flag with
      | false => exact ih r h
      | true =>
          have hdv : Dims (setValue sq row col v) := dims_setValue hd row col v
          have hd2 : Dims b2 := by
            have := updateDomains_dims hdv hrow hcol; rwa [hu] at this
          have hco2 : Coords b2 := by
            have := updateDomains_coords hdv (setValue_coords hd hco hrow hcol v) hrow hcol
            rwa [hu] at this
          have hnewq : newSudokuCSP b2 false = ⟨b2, false⟩ := by
            unfold newSudokuCSP; rw [copySquares_eq_self hd2]
          have h2 : (match bt (newSudokuCSP b2 false) with
              | none => none
              | some result => if result.failure = false then some (some result)
                  else tryCandidates bt sq row col rest) = some (some r) := h
          rcases hbv : bt (newSudokuCSP b2 false) with _ | r2
          · rw [hbv] at h2; exact Option.noConfusion h2
          · rw [hbv] at h2
            have h3 : (if r2.failure = false then some (some r2)
                else tryCandidates bt sq row col rest) = some (some r) := h2
            split at h3
            · have heq : r2 = r := Option.some.inj (Option.some.inj h3)
              subst heq
              obtain ⟨hdr, hpres⟩ := hbt ⟨b2, false⟩ hd2 hco2 r2
                (by rw [← hnewq]; exact hbv)
              refine ⟨hdr, ?_⟩
              intro i j hi hj hnzv
              have hijne : ¬(i = row ∧ j = col) := by
                rintro ⟨rfl, rfl⟩; exact hnzv hzv
              have hvalset : (cellAt (setValue sq row col v) i j).value
                  = (cellAt sq i j).value := by
                rw [cellAt_setValue hd hrow hcol v i j, if_neg hijne]
              have hvalb2 : (cellAt b2 i j).value = (cellAt sq i j).value := by
                have := (updateDomains_cells hdv hrow hcol i j).1
                rw [hu] at this
                rw [this, hvalset]
              have hnz2 : (cellAt b2 i j).value ≠ 0 := by rw [hvalb2]; exact hnzv
              have hfin := hpres i j hi hj hnz2
              rw [hfin]
              exact hvalb2
            · exact ih r h3

theorem backtrack_preserves : ∀ fuel : Nat, ∀ csp : SudokuCSP,
    Dims csp.squares → Coords csp.squares →
    ∀ r : SudokuCSP, backtrack fuel csp = some r →
      Dims r.squares ∧ ∀ i j : Nat, i < 9 → j < 9 →
        (cellAt csp.squares i j).value ≠ 0 →
        (cellAt r.squares i j).value = (cellAt csp.squares i j).value := by
  intro fuel
  induction fuel with
  | zero => intro csp _ _ r h; exact Option.noConfusion h
  | succ n ih =>
      intro csp hd hco r hr
      simp only [backtrack] at hr
      split at hr
      · have heq := Option.some.inj hr
        subst heq
        exact ⟨hd, fun i j _ _ _ => rfl⟩
      · next hnf =>
          have hnf2 : isFull csp.squares = false := by
            cases h : isFull csp.squares
            · rfl
            · exact absurd h hnf
          obtain ⟨i0, j0, hi0, hj0, hsq, hzv, hri, hcj⟩ := getEmptySquare_spec hd hco hnf2
          rw [hri, hcj] at hr
          rcases htc : tryCandidates (backtrack n) csp.squares i0 j0
              (getEmptySquare csp.squares).domain with _ | opt
          · rw [htc] at hr; exact Option.noConfusion hr
          · rw [htc] at hr
            cases opt with
            | none =>
                have h2 : some (newSudokuCSP csp.squares true) = some r := hr
                have h3 := Option.some.inj h2
                rw [← h3]
                constructor
                · show Dims (newSudokuCSP csp.squares true).squares
                  unfold newSudokuCSP
                  rw [copySquares_eq_self hd]
                  exact hd
                · intro i j _ _ _
                  show (cellAt (newSudokuCSP csp.squares true).squares i j).value = _
                  unfold newSudokuCSP
                  rw [copySquares_eq_self hd]
            | some r2 =>
                have h2 : some r2 = some r := hr
                have h3 := Option.some.inj h2
                subst h3
                exact tryCandidates_preserves (backtrack n) hd hco hi0 hj0 hzv
                  (fun csp2 hd2 hco2 r3 h4 => ih csp2 hd2 hco2 r3 h4) _ r2 htc

/-- Claim C4: for every well-formed input grid, any result of `solve` (in
particular any non-failure result) leaves every nonzero cell of the input
grid unchanged: `backtrack` only ever assigns values to cells that were 0. -/
theorem c4_theorem {g : List (List Int)} (_hwf : gridWF g) {r : SudokuCSP}
    (hr : solveInput g = some r) (_hfail : r.failure = false)
    {i j : Nat} (hi : i < 9) (hj : j < 9) (hnz : gridVal g i j ≠ 0) :
    (cellAt r.squares i j).value = gridVal g i j := by
  have hdm := dims_mkSquares g
  have hcm := coords_mkSquares g
  simp only [solveInput, solve] at hr
  rw [copySquares_eq_self hdm] at hr
  obtain ⟨hdu, hcells, _, _⟩ := updateAllDomains_preserves hdm
  have hcou : Coords (updateAllDomains (mkSquares g)).1 := by
    intro a ha b hb
    obtain ⟨_, h2, h3⟩ := hcells a b
    rw [h2, h3]
    exact hcm a ha b hb
  have hnewq : newSudokuCSP (updateAllDomains (mkSquares g)).1 false
      = ⟨(updateAllDomains (mkSquares g)).1, false⟩ := by
    unfold newSudokuCSP; rw [copySquares_eq_self hdu]
  rw [hnewq] at hr
  obtain ⟨_, hpres⟩ := backtrack_preserves _
    ⟨(updateAllDomains (mkSquares g)).1, false⟩ hdu hcou r hr
  have hvu : (cellAt (updateAllDomains (mkSquares g)).1 i j).value = gridVal g i j := by
    rw [(hcells i j).1, cellAt_mkSquares hi hj]
  have hstep := hpres i j hi hj (by
    show (cellAt (updateAllDomains (mkSquares g)).1 i j).value ≠ 0
    rw [hvu]; exact hnz)
  rw [hstep]
  show (cellAt (updateAllDomains (mkSquares g)).1 i j).value = gridVal g i j
  exact hvu

/-- Witness for C4: on the all-1s grid `solve` returns a non-failure result
and the prefilled cell `(0,0)` keeps its value 1. -/
theorem c4_witness : (cellAt onesRes.squares 0 0).value = 1 :=
  (c4_theorem (g := onesGrid) (by decide) (r := onesRes) (by decide) (by decide)
    (i := 0) (j := 0) (by decide) (by decide) (by decide)).trans (by decide)

/-! ### Idempotence on solved input: claim C5 -/

theorem backtrack_full {fuel : Nat} {csp : SudokuCSP} (hfull : isFull csp.squares = true) :
    backtrack (fuel + 1) csp = some csp := by
  simp only [backtrack]
  rw [if_pos hfull]

/-- Claim C5: on a full input grid satisfying the sudoku constraints, `solve`
returns `failure = false` and a grid with exactly the input's values:
`updateAllDomains` never changes values, and `backtrack` returns a full board
immediately. -/
theorem c5_theorem {g : List (List Int)} (hwf : gridWF g) (hfull : gridFull g)
    (_hvalid : validCompleteValues g) :
    (solveInput g).map (fun r => r.failure) = some false ∧
    (solveInput g).map (fun r => valuesOf r.squares) = some g := by
  have hdm := dims_mkSquares g
  obtain ⟨hdu, hcells, _, _⟩ := updateAllDomains_preserves hdm
  have hvals : ∀ i j : Nat, i < 9 → j < 9 →
      (cellAt (updateAllDomains (mkSquares g)).1 i j).value = gridVal g i j := by
    intro i j hi hj
    rw [(hcells i j).1, cellAt_mkSquares hi hj]
  have hfullb : isFull (updateAllDomains (mkSquares g)).1 = true := by
    rw [isFull_true_iff hdu]
    intro i hi j hj
    rw [hvals i j hi hj]
    exact hfull i hi j hj
  have hsol : solveInput g = some ⟨(updateAllDomains (mkSquares g)).1, false⟩ := by
    simp only [solveInput, solve]
    rw [copySquares_eq_self hdm]
    have hnewq : newSudokuCSP (updateAllDomains (mkSquares g)).1 false
        = ⟨(updateAllDomains (mkSquares g)).1, false⟩ := by
      unfold newSudokuCSP; rw [copySquares_eq_self hdu]
    rw [hnewq]
    exact @backtrack_full _ ⟨(updateAllDomains (mkSquares g)).1, false⟩ hfullb
  refine ⟨by rw [hsol]; rfl, ?_⟩
  rw [hsol]
  show some (valuesOf (updateAllDomains (mkSquares g)).1) = some g
  rw [valuesOf_eq_of_cells hdu hwf.1 hvals]

/-- Witness for C5 at the concrete valid complete grid `solvedGrid`. -/
theorem c5_witness :
    (solveInput solvedGrid).map (fun r => r.failure) = some false ∧
    (solveInput solvedGrid).map (fun r => valuesOf r.squares) = some solvedGrid :=
  c5_theorem (by decide) (by decide) (by decide)

/-! ### Store-passing embedding: list-level helpers -/

theorem getD_take_eq {α : Type} {l1 l2 : List α} {n : Nat} (h : l2.take n = l1.take n)
    {x : Nat} (hx : x < n) (d : α) : l2.getD x d = l1.getD x d := by
  rw [List.getD_eq_getElem?_getD, List.getD_eq_getElem?_getD]
  have h1 : (l2.take n)[x]? = (l1.take n)[x]? := by rw [h]
  rw [List.getElem?_take, List.getElem?_take, if_pos hx, if_pos hx] at h1
  rw [h1]

theorem getD_append_left {α : Type} {l1 l2 : List α} {x : Nat} (hx : x < l1.length) (d : α) :
    (l1 ++ l2).getD x d = l1.getD x d := by
  rw [List.getD_eq_getElem?_getD, List.getD_eq_getElem?_getD, List.getElem?_append_left hx]

theorem getD_append_self {α : Type} (l1 : List α) (a : α) (d : α) :
    (l1 ++ [a]).getD l1.length d = a := by
  rw [List.getD_eq_getElem?_getD, List.getElem?_append_right (Nat.le_refl _), Nat.sub_self]
  rfl

theorem take_eq_mono {α : Type} {l1 l2 : List α} {n n2 : Nat} (hle : n ≤ n2)
    (h : l2.take n2 = l1.take n2) : l2.take n = l1.take n := by
  have h2 := congrArg (List.take n) h
  rw [List.take_take, List.take_take, Nat.min_eq_left hle] at h2
  exact h2

theorem take_set_of_le {α : Type} (l : List α) {i n : Nat} (h : n ≤ i) (a : α) :
    (l.set i a).take n = l.take n := by
  apply List.ext_getElem
  · rw [List.length_take, List.length_take, List.length_set]
  · intro k h1 h2
    rw [List.length_take, List.length_set] at h1
    have hk : k < n := lt_of_lt_of_le h1 (Nat.min_le_left _ _)
    have hk2 : k < l.length := lt_of_lt_of_le h1 (Nat.min_le_right _ _)
    rw [List.getElem_take, List.getElem_take, List.getElem_set_ne (by omega)]

/-! ### Store-passing embedding: primitive operations -/

theorem frameAbove_refl (n0 d0 : Nat) (h : Heap) : FrameAbove n0 d0 h h :=
  ⟨rfl, rfl, Nat.le_refl _, Nat.le_refl _⟩

theorem frameAbove_trans {n0 d0 : Nat} {h1 h2 h3 : Heap}
    (a : FrameAbove n0 d0 h1 h2) (b : FrameAbove n0 d0 h2 h3) : FrameAbove n0 d0 h1 h3 :=
  ⟨b.1.trans a.1, b.2.1.trans a.2.1, a.2.2.1.trans b.2.2.1, a.2.2.2.trans b.2.2.2⟩

theorem sizesAbove_of_frame {n0 d0 : Nat} {h h2 : Heap} (hs : SizesAbove n0 d0 h)
    (hf : FrameAbove n0 d0 h h2) : SizesAbove n0 d0 h2 :=
  ⟨hs.1.trans hf.2.2.1, hs.2.trans hf.2.2.2⟩

theorem readSq_frame {n0 d0 : Nat} {h h2 : Heap} (hf : FrameAbove n0 d0 h h2)
    {x : Nat} (hx : x < n0) : readSq h2 x = readSq h x := by
  unfold readSq
  exact getD_take_eq hf.1 hx _

theorem readDom_frame {n0 d0 : Nat} {h h2 : Heap} (hf : FrameAbove n0 d0 h h2)
    {x : Nat} (hx : x < d0) : readDom h2 x = readDom h x := by
  unfold readDom
  exact getD_take_eq hf.2.1 hx _

theorem readSq_writeValueH_ne (h : Heap) {r x : Nat} (hx : x ≠ r) (v : Int) :
    readSq (writeValueH h r v) x = readSq h x := by
  unfold readSq writeValueH
  exact getD_set_ne _ _ _ (fun hc => hx hc.symm)

theorem readSq_writeValueH_self (h : Heap) {r : Nat} (hr : r < h.sqs.length) (v : Int) :
    readSq (writeValueH h r v) r = { readSq h r with value := v } := by
  unfold readSq writeValueH
  exact getD_set_self _ _ _ _ hr

theorem readSq_writeValueH_oob (h : Heap) {r : Nat} (hr : ¬ r < h.sqs.length) (v : Int) :
    readSq (writeValueH h r v) r = readSq h r := by
  unfold readSq writeValueH
  rw [List.set_eq_of_length_le (Nat.le_of_not_lt hr)]

theorem readSq_writeValueH_fields (h : Heap) (r x : Nat) (v : Int) :
    (readSq (writeValueH h r v) x).row = (readSq h x).row ∧
    (readSq (writeValueH h r v) x).col = (readSq h x).col ∧
    (readSq (writeValueH h r v) x).domRef = (readSq h x).domRef := by
  by_cases hx : x = r
  · subst hx
    by_cases hr : x < h.sqs.length
    · rw [readSq_writeValueH_self h hr v]
      exact ⟨rfl, rfl, rfl⟩
    · rw [readSq_writeValueH_oob h hr v]
      exact ⟨rfl, rfl, rfl⟩
  · rw [readSq_writeValueH_ne h hx v]
    exact ⟨rfl, rfl, rfl⟩

theorem readDom_writeValueH (h : Heap) (r : Nat) (v : Int) (x : Nat) :
    readDom (writeValueH h r v) x = readDom h x := rfl

theorem writeValueH_lengths (h : Heap) (r : Nat) (v : Int) :
    (writeValueH h r v).sqs.length = h.sqs.length ∧
    (writeValueH h r v).doms.length = h.doms.length := by
  unfold writeValueH
  exact ⟨List.length_set .., rfl⟩

theorem frameAbove_writeValueH {n0 d0 : Nat} {h : Heap} {r : Nat} (hr : n0 ≤ r) (v : Int) :
    FrameAbove n0 d0 h (writeValueH h r v) := by
  refine ⟨take_set_of_le _ hr _, rfl, ?_, Nat.le_refl _⟩
  rw [(writeValueH_lengths h r v).1]

theorem readSq_assignDomH_ne (h : Heap) {r x : Nat} (hx : x ≠ r) (d : List Int) :
    readSq (assignDomH h r d) x = readSq h x := by
  unfold readSq assignDomH
  exact getD_set_ne _ _ _ (fun hc => hx hc.symm)

theorem readSq_assignDomH_self (h : Heap) {r : Nat} (hr : r < h.sqs.length) (d : List Int) :
    readSq (assignDomH h r d) r = { readSq h r with domRef := h.doms.length } := by
  unfold readSq assignDomH
  exact getD_set_self _ _ _ _ hr

theorem readSq_assignDomH_oob (h : Heap) {r : Nat} (hr : ¬ r < h.sqs.length) (d : List Int) :
    readSq (assignDomH h r d) r = readSq h r := by
  unfold readSq assignDomH
  rw [List.set_eq_of_length_le (Nat.le_of_not_lt hr)]

theorem readSq_assignDomH_fields (h : Heap) (r x : Nat) (d : List Int) :
    (readSq (assignDomH h r d) x).row = (readSq h x).row ∧
    (readSq (assignDomH h r d) x).col = (readSq h x).col ∧
    (readSq (assignDomH h r d) x).value = (readSq h x).value := by
  by_cases hx : x = r
  · subst hx
    by_cases hr : x < h.sqs.length
    · rw [readSq_assignDomH_self h hr d]
      exact ⟨rfl, rfl, rfl⟩
    · rw [readSq_assignDomH_oob h hr d]
      exact ⟨rfl, rfl, rfl⟩
  · rw [readSq_assignDomH_ne h hx d]
    exact ⟨rfl, rfl, rfl⟩

theorem readDom_assignDomH_old (h : Heap) (r : Nat) (d : List Int) {x : Nat}
    (hx : x < h.doms.length) : readDom (assignDomH h r d) x = readDom h x := by
  unfold readDom assignDomH
  exact getD_append_left hx _

theorem readDom_assignDomH_fresh (h : Heap) (r : Nat) (d : List Int) :
    readDom (assignDomH h r d) h.doms.length = d := by
  unfold readDom assignDomH
  exact getD_append_self _ _ _

theorem assignDomH_lengths (h : Heap) (r : Nat) (d : List Int) :
    (assignDomH h r d).sqs.length = h.sqs.length ∧
    (assignDomH h r d).doms.length = h.doms.length + 1 := by
  unfold assignDomH
  refine ⟨List.length_set .., ?_⟩
  rw [List.length_append]
  rfl

theorem frameAbove_assignDomH {n0 d0 : Nat} {h : Heap} {r : Nat} (hr : n0 ≤ r)
    (hd0 : d0 ≤ h.doms.length) (d : List Int) : FrameAbove n0 d0 h (assignDomH h r d) := by
  refine ⟨take_set_of_le _ hr _, List.take_append_of_le_length hd0, ?_, ?_⟩
  · rw [(assignDomH_lengths h r d).1]
  · rw [(assignDomH_lengths h r d).2]
    omega

theorem readSq_spliceDomH (h : Heap) (r : Nat) (v : Int) (x : Nat) :
    readSq (spliceDomH h r v) x = readSq h x := rfl

theorem readDom_spliceDomH_ne (h : Heap) {r : Nat} (v : Int) {x : Nat}
    (hx : x ≠ (readSq h r).domRef) : readDom (spliceDomH h r v) x = readDom h x := by
  unfold readDom spliceDomH
  exact getD_set_ne _ _ _ (fun hc => hx hc.symm)

theorem spliceDomH_lengths (h : Heap) (r : Nat) (v : Int) :
    (spliceDomH h r v).sqs.length = h.sqs.length ∧
    (spliceDomH h r v).doms.length = h.doms.length := by
  unfold spliceDomH
  exact ⟨rfl, List.length_set ..⟩

theorem frameAbove_spliceDomH {n0 d0 : Nat} {h : Heap} {r : Nat}
    (hr : d0 ≤ (readSq h r).domRef) (v : Int) : FrameAbove n0 d0 h (spliceDomH h r v) := by
  refine ⟨rfl, take_set_of_le _ hr _, Nat.le_refl _, ?_⟩
  rw [(spliceDomH_lengths h r v).2]

/-! ### The deep copy in the store-passing embedding -/

theorem frameAbove_mono {n0 d0 n1 d1 : Nat} {h h2 : Heap} (hn : n0 ≤ n1) (hd : d0 ≤ d1)
    (hf : FrameAbove n1 d1 h h2) : FrameAbove n0 d0 h h2 :=
  ⟨take_eq_mono hn hf.1, take_eq_mono hd hf.2.1, hf.2.2.1, hf.2.2.2⟩

theorem getD_range {n x : Nat} (hx : x < n) : (List.range n).getD x 0 = x := by
  rw [List.getD_eq_getElem _ _ (by rw [List.length_range]; exact hx)]
  apply List.getElem_range

theorem getD_mem {α : Type} {l : List α} {x : Nat} (hx : x < l.length) (d : α) :
    l.getD x d ∈ l := by
  rw [List.getD_eq_getElem _ _ hx]
  exact List.getElem_mem _

theorem sqRef_mem_flatten {g : HGrid} {i j : Nat} (hi : i < g.length)
    (hj : j < (g.getD i []).length) : sqRef g i j ∈ g.flatten := by
  unfold sqRef
  rw [List.mem_flatten]
  refine ⟨g.getD i [], ?_, getD_mem hj 0⟩
  rw [List.getD_eq_getElem g [] hi]
  exact List.getElem_mem _

theorem copyCellH_spec (g : HGrid) (i j : Nat) (h : Heap) :
    FrameAbove h.sqs.length h.doms.length h (copyCellH g i j h).2 ∧
    (copyCellH g i j h).2.sqs.length = h.sqs.length + 1 ∧
    (copyCellH g i j h).2.doms.length = h.doms.length + 1 ∧
    (copyCellH g i j h).1 = h.sqs.length ∧
    readSq (copyCellH g i j h).2 h.sqs.length =
      ⟨(readSq h (sqRef g i j)).row, (readSq h (sqRef g i j)).col,
       (readSq h (sqRef g i j)).value, h.doms.length⟩ ∧
    readDom (copyCellH g i j h).2 h.doms.length
      = readDom h (readSq h (sqRef g i j)).domRef := by
  refine ⟨⟨?_, ?_, ?_, ?_⟩, ?_, ?_, rfl, ?_, ?_⟩
  · exact List.take_append_of_le_length (Nat.le_refl _)
  · exact List.take_append_of_le_length (Nat.le_refl _)
  · show h.sqs.length ≤ (h.sqs ++ _).length
    rw [List.length_append]
    omega
  · show h.doms.length ≤ (h.doms ++ _).length
    rw [List.length_append]
    omega
  · show (h.sqs ++ _).length = _
    rw [List.length_append]
    rfl
  · show (h.doms ++ _).length = _
    rw [List.length_append]
    rfl
  · exact getD_append_self _ _ _
  · exact getD_append_self _ _ _

theorem copyRowH_spec (g : HGrid) (i : Nat) : ∀ (js : List Nat) (h : Heap),
    (∀ j2 ∈ js, sqRef g i j2 < h.sqs.length ∧
      (readSq h (sqRef g i j2)).domRef < h.doms.length) →
    FrameAbove h.sqs.length h.doms.length h (copyRowH g i js h).2 ∧
    (copyRowH g i js h).1.length = js.length ∧
    (∀ r ∈ (copyRowH g i js h).1,
      h.sqs.length ≤ r ∧ r < (copyRowH g i js h).2.sqs.length ∧
      h.doms.length ≤ (readSq (copyRowH g i js h).2 r).domRef ∧
      (readSq (copyRowH g i js h).2 r).domRef < (copyRowH g i js h).2.doms.length) ∧
    (∀ k : Nat, k < js.length →
      (readSq (copyRowH g i js h).2 ((copyRowH g i js h).1.getD k 0)).row
        = (readSq h (sqRef g i (js.getD k 0))).row ∧
      (readSq (copyRowH g i js h).2 ((copyRowH g i js h).1.getD k 0)).col
        = (readSq h (sqRef g i (js.getD k 0))).col ∧
      (readSq (copyRowH g i js h).2 ((copyRowH g i js h).1.getD k 0)).value
        = (readSq h (sqRef g i (js.getD k 0))).value ∧
      readDom (copyRowH g i js h).2
          (readSq (copyRowH g i js h).2 ((copyRowH g i js h).1.getD k 0)).domRef
        = readDom h (readSq h (sqRef g i (js.getD k 0))).domRef) := by
  intro js
  induction js with
  | nil =>
      intro h _
      exact ⟨frameAbove_refl .., rfl, fun r hr => absurd hr (List.not_mem_nil r),
        fun k hk => absurd hk (Nat.not_lt_zero k)⟩
  | cons j js2 ih =>
      intro h hval
      simp only [copyRowH]
      obtain ⟨hcf, hcs, hcd, hcr, hcsq, hcdom⟩ := copyCellH_spec g i j h
      set h1 := (copyCellH g i j h).2 with hh1
      have hval2 : ∀ j2 ∈ js2, sqRef g i j2 < h1.sqs.length ∧
          (readSq h1 (sqRef g i j2)).domRef < h1.doms.length := by
        intro j2 hj2
        have hv := hval j2 (List.mem_cons_of_mem _ hj2)
        have hrd : readSq h1 (sqRef g i j2) = readSq h (sqRef g i j2) :=
          readSq_frame hcf hv.1
        rw [hrd, hcs, hcd]
        omega
      obtain ⟨ihf, ihlen, ihbounds, ihcontent⟩ := ih h1 hval2
      have hframe : FrameAbove h.sqs.length h.doms.length h (copyRowH g i js2 h1).2 :=
        frameAbove_trans hcf (frameAbove_mono (by rw [hcs]; omega) (by rw [hcd]; omega) ihf)
      have hreadhead : readSq (copyRowH g i js2 h1).2 (copyCellH g i j h).1 =
          ⟨(readSq h (sqRef g i j)).row, (readSq h (sqRef g i j)).col,
           (readSq h (sqRef g i j)).value, h.doms.length⟩ := by
        rw [hcr, readSq_frame ihf (by rw [hcs]; omega)]
        exact hcsq
      refine ⟨hframe, ?_, ?_, ?_⟩
      · rw [List.length_cons, List.length_cons, ihlen]
      · intro r hr
        rcases List.mem_cons.mp hr with rfl | hmem
        · rw [hcr]
          refine ⟨Nat.le_refl _, ?_, ?_, ?_⟩
          · have := ihf.2.2.1
            omega
          · rw [← hcr, hreadhead]
          · rw [← hcr, hreadhead]
            show h.doms.length < _
            have := ihf.2.2.2
            omega
        · have hb := ihbounds r hmem
          refine ⟨?_, hb.2.1, ?_, hb.2.2.2⟩
          · have := hb.1
            omega
          · have := hb.2.2.1
            omega
      · intro k hk
        cases k with
        | zero =>
            have hget0 : (((copyCellH g i j h).1 :: (copyRowH g i js2 h1).1).getD 0 0)
                = (copyCellH g i j h).1 := rfl
            have hjs0 : ((j :: js2).getD 0 0) = j := rfl
            rw [hget0, hjs0, hreadhead]
            refine ⟨rfl, rfl, rfl, ?_⟩
            show readDom (copyRowH g i js2 h1).2 h.doms.length = _
            rw [readDom_frame ihf (by rw [hcd]; omega)]
            exact hcdom
        | succ k2 =>
            rw [List.length_cons] at hk
            have hk2 : k2 < js2.length := by omega
            have hc := ihcontent k2 hk2
            have hvk := hval (js2.getD k2 0)
              (List.mem_cons_of_mem _ (getD_mem hk2 0))
            have hrs : readSq h1 (sqRef g i (js2.getD k2 0))
                = readSq h (sqRef g i (js2.getD k2 0)) := readSq_frame hcf hvk.1
            rw [hrs] at hc
            have hrd : readDom h1 (readSq h (sqRef g i (js2.getD k2 0))).domRef
                = readDom h (readSq h (sqRef g i (js2.getD k2 0))).domRef :=
              readDom_frame hcf hvk.2
            rw [hrd] at hc
            have hgets : (((copyCellH g i j h).1 :: (copyRowH g i js2 h1).1).getD (k2 + 1) 0)
                = (copyRowH g i js2 h1).1.getD k2 0 := rfl
            have hjss : ((j :: js2).getD (k2 + 1) 0) = js2.getD k2 0 := rfl
            rw [hgets, hjss]
            exact hc

theorem copyRowsH_spec (g : HGrid) (n : Nat) : ∀ (is : List Nat) (h : Heap),
    (∀ i2 ∈ is, ∀ j2 ∈ List.range n, sqRef g i2 j2 < h.sqs.length ∧
      (readSq h (sqRef g i2 j2)).domRef < h.doms.length) →
    FrameAbove h.sqs.length h.doms.length h (copyRowsH g n is h).2 ∧
    (copyRowsH g n is h).1.length = is.length ∧
    (∀ row ∈ (copyRowsH g n is h).1, row.length = n) ∧
    (∀ r ∈ (copyRowsH g n is h).1.flatten,
      h.sqs.length ≤ r ∧ r < (copyRowsH g n is h).2.sqs.length ∧
      h.doms.length ≤ (readSq (copyRowsH g n is h).2 r).domRef ∧
      (readSq (copyRowsH g n is h).2 r).domRef < (copyRowsH g n is h).2.doms.length) ∧
    (∀ k l : Nat, k < is.length → l < n →
      (readSq (copyRowsH g n is h).2 (sqRef (copyRowsH g n is h).1 k l)).row
        = (readSq h (sqRef g (is.getD k 0) l)).row ∧
      (readSq (copyRowsH g n is h).2 (sqRef (copyRowsH g n is h).1 k l)).col
        = (readSq h (sqRef g (is.getD k 0) l)).col ∧
      (readSq (copyRowsH g n is h).2 (sqRef (copyRowsH g n is h).1 k l)).value
        = (readSq h (sqRef g (is.getD k 0) l)).value ∧
      readDom (copyRowsH g n is h).2
          (readSq (copyRowsH g n is h).2 (sqRef (copyRowsH g n is h).1 k l)).domRef
        = readDom h (readSq h (sqRef g (is.getD k 0) l)).domRef) := by
  intro is
  induction is with
  | nil =>
      intro h _
      exact ⟨frameAbove_refl .., rfl, fun row hr => absurd hr (List.not_mem_nil row),
        fun r hr => absurd hr (List.not_mem_nil r),
        fun k l hk _ => absurd hk (Nat.not_lt_zero k)⟩
  | cons i is2 ih =>
      intro h hval
      simp only [copyRowsH]
      obtain ⟨hcf, hclen, hcbounds, hccontent⟩ := copyRowH_spec g i (List.range n) h
        (fun j2 hj2 => hval i (List.mem_cons_self ..) j2 hj2)
      set h1 := (copyRowH g i (List.range n) h).2 with hh1
      set row1 := (copyRowH g i (List.range n) h).1 with hrow1
      have hval2 : ∀ i2 ∈ is2, ∀ j2 ∈ List.range n, sqRef g i2 j2 < h1.sqs.length ∧
          (readSq h1 (sqRef g i2 j2)).domRef < h1.doms.length := by
        intro i2 hi2 j2 hj2
        have hv := hval i2 (List.mem_cons_of_mem _ hi2) j2 hj2
        have hrd : readSq h1 (sqRef g i2 j2) = readSq h (sqRef g i2 j2) :=
          readSq_frame hcf hv.1
        rw [hrd]
        have h1le := hcf.2.2.1
        have h2le := hcf.2.2.2
        omega
      obtain ⟨ihf, ihlen, ihrows, ihbounds, ihcontent⟩ := ih h1 hval2
      have hframe : FrameAbove h.sqs.length h.doms.length h (copyRowsH g n is2 h1).2 :=
        frameAbove_trans hcf
          (frameAbove_mono hcf.2.2.1 hcf.2.2.2 ihf)
      have hrow1len : row1.length = n := by rw [hrow1, hclen, List.length_range]
      refine ⟨hframe, ?_, ?_, ?_, ?_⟩
      · rw [List.length_cons, List.length_cons, ihlen]
      · intro row hr
        rcases List.mem_cons.mp hr with rfl | hmem
        · exact hrow1len
        · exact ihrows row hmem
      · intro r hr
        rw [List.flatten_cons, List.mem_append] at hr
        rcases hr with hmem | hmem
        · have hb := hcbounds r hmem
          have hrs : readSq (copyRowsH g n is2 h1).2 r = readSq h1 r :=
            readSq_frame ihf hb.2.1
          rw [hrs]
          have h1le := ihf.2.2.1
          have h2le := ihf.2.2.2
          refine ⟨hb.1, by omega, hb.2.2.1, by omega⟩
        · have hb := ihbounds r hmem
          have h1le := hcf.2.2.1
          have h2le := hcf.2.2.2
          refine ⟨by omega, hb.2.1, by omega, hb.2.2.2⟩
      · intro k l hk hl
        cases k with
        | zero =>
            have hsq0 : sqRef (row1 :: (copyRowsH g n is2 h1).1) 0 l = row1.getD l 0 := rfl
            have hi0 : ((i :: is2).getD 0 0) = i := rfl
            rw [hsq0, hi0]
            have hc := hccontent l (by rw [List.length_range]; exact hl)
            rw [getD_range hl] at hc
            have hmemrow : row1.getD l 0 ∈ row1 := getD_mem (by rw [hrow1len]; exact hl) 0
            have hb := hcbounds _ hmemrow
            have hrs : readSq (copyRowsH g n is2 h1).2 (row1.getD l 0)
                = readSq h1 (row1.getD l 0) := readSq_frame ihf hb.2.1
            rw [hrs]
            refine ⟨hc.1, hc.2.1, hc.2.2.1, ?_⟩
            rw [readDom_frame ihf hb.2.2.2]
            exact hc.2.2.2
        | succ k2 =>
            rw [List.length_cons] at hk
            have hk2 : k2 < is2.length := by omega
            have hc := ihcontent k2 l hk2 hl
            have hsqs : sqRef (row1 :: (copyRowsH g n is2 h1).1) (k2 + 1) l
                = sqRef (copyRowsH g n is2 h1).1 k2 l := rfl
            have hiss : ((i :: is2).getD (k2 + 1) 0) = is2.getD k2 0 := rfl
            rw [hsqs, hiss]
            have hvk := hval (is2.getD k2 0)
              (List.mem_cons_of_mem _ (getD_mem hk2 0)) l (by rw [List.mem_range]; exact hl)
            have hrs : readSq h1 (sqRef g (is2.getD k2 0) l)
                = readSq h (sqRef g (is2.getD k2 0) l) := readSq_frame hcf hvk.1
            rw [hrs] at hc
            have hrd : readDom h1 (readSq h (sqRef g (is2.getD k2 0) l)).domRef
                = readDom h (readSq h (sqRef g (is2.getD k2 0) l)).domRef :=
              readDom_frame hcf hvk.2
            rw [hrd] at hc
            exact hc

/-! ### Claim C7: `copySquares` is a deep, disjoint copy -/

/-- Claim C7, against the store-passing embedding: for every board whose
references are valid, `copySquares` (1) leaves every pre-existing Square
object and domain array untouched, (2) returns only freshly allocated Square
objects whose domain arrays are also fresh — so the copy shares no object
and no domain array with the source, (3) copies row, column, value and the
domain contents of every cell, and (4) is mutation-independent: writing a
value or splicing a domain through any square of the copy does not change
what is observable through any square of the original, and vice versa. -/
theorem c7_theorem {g : HGrid} {h : Heap} (hsq : ∀ row ∈ g, row.length = g.length)
    (hval : HValid h g) :
    ((copySquaresH g h).2.sqs.take h.sqs.length = h.sqs ∧
     (copySquaresH g h).2.doms.take h.doms.length = h.doms) ∧
    (∀ rc ∈ (copySquaresH g h).1.flatten, ∀ ro ∈ g.flatten,
      rc ≠ ro ∧
      (readSq (copySquaresH g h).2 rc).domRef ≠ (readSq (copySquaresH g h).2 ro).domRef) ∧
    ((copySquaresH g h).1.length = g.length ∧
     (∀ row ∈ (copySquaresH g h).1, row.length = g.length) ∧
     ∀ i j : Nat, i < g.length → j < g.length →
       (readSq (copySquaresH g h).2 (sqRef (copySquaresH g h).1 i j)).row
         = (readSq h (sqRef g i j)).row ∧
       (readSq (copySquaresH g h).2 (sqRef (copySquaresH g h).1 i j)).col
         = (readSq h (sqRef g i j)).col ∧
       (readSq (copySquaresH g h).2 (sqRef (copySquaresH g h).1 i j)).value
         = (readSq h (sqRef g i j)).value ∧
       readDom (copySquaresH g h).2
           (readSq (copySquaresH g h).2 (sqRef (copySquaresH g h).1 i j)).domRef
         = readDom h (readSq h (sqRef g i j)).domRef) ∧
    (∀ rc ∈ (copySquaresH g h).1.flatten, ∀ ro ∈ g.flatten, ∀ v : Int,
      readSq (writeValueH (copySquaresH g h).2 rc v) ro = readSq (copySquaresH g h).2 ro ∧
      domOf (spliceDomH (copySquaresH g h).2 rc v) ro = domOf (copySquaresH g h).2 ro ∧
      readSq (writeValueH (copySquaresH g h).2 ro v) rc = readSq (copySquaresH g h).2 rc ∧
      domOf (spliceDomH (copySquaresH g h).2 ro v) rc = domOf (copySquaresH g h).2 rc) := by
  have hval2 : ∀ i2 ∈ List.range g.length, ∀ j2 ∈ List.range g.length,
      sqRef g i2 j2 < h.sqs.length ∧
      (readSq h (sqRef g i2 j2)).domRef < h.doms.length := by
    intro i2 hi2 j2 hj2
    rw [List.mem_range] at hi2 hj2
    have hrl : (g.getD i2 []).length = g.length := by
      rw [List.getD_eq_getElem g [] hi2]
      exact hsq _ (List.getElem_mem hi2)
    exact hval _ (sqRef_mem_flatten hi2 (by rw [hrl]; exact hj2))
  obtain ⟨hf, hlen, hrows, hbounds, hcontent⟩ :=
    copyRowsH_spec g g.length (List.range g.length) h hval2
  have hcseq : copyRowsH g g.length (List.range g.length) h = copySquaresH g h := rfl
  rw [hcseq] at hf hlen hrows hbounds hcontent
  have hdisj : ∀ rc ∈ (copySquaresH g h).1.flatten, ∀ ro ∈ g.flatten,
      rc ≠ ro ∧
      (readSq (copySquaresH g h).2 rc).domRef
        ≠ (readSq (copySquaresH g h).2 ro).domRef := by
    intro rc hrc ro hro
    have hb := hbounds rc hrc
    have hvo := hval ro hro
    have hro2 : readSq (copySquaresH g h).2 ro = readSq h ro := readSq_frame hf hvo.1
    constructor
    · intro hc; subst hc; omega
    · rw [hro2]
      have := hvo.2
      omega
  refine ⟨⟨?_, ?_⟩, hdisj, ⟨by rw [hlen, List.length_range], hrows, ?_⟩, ?_⟩
  · rw [hf.1, List.take_length]
  · rw [hf.2.1, List.take_length]
  · intro i j hi hj
    have hc := hcontent i j (by rw [List.length_range]; exact hi) hj
    rw [getD_range hi] at hc
    exact hc
  · intro rc hrc ro hro v
    obtain ⟨hne, hdne⟩ := hdisj rc hrc ro hro
    refine ⟨readSq_writeValueH_ne _ (fun hc => hne hc.symm) v, ?_,
      readSq_writeValueH_ne _ hne v, ?_⟩
    · unfold domOf
      rw [readSq_spliceDomH]
      exact readDom_spliceDomH_ne _ v (fun hc => hdne hc.symm)
    · unfold domOf
      rw [readSq_spliceDomH]
      exact readDom_spliceDomH_ne _ v hdne

/-- Witness for C7 at the concrete 2×2 board `c7Grid` in `c7Heap`: the
original store is untouched, the copy's `(0,0)` square is a different object
with a different domain array, and its contents match. -/
theorem c7_witness :
    c7Pair.2.sqs.take c7Heap.sqs.length = c7Heap.sqs ∧
    sqRef c7Pair.1 0 0 ≠ sqRef c7Grid 0 0 ∧
    (readSq c7Pair.2 (sqRef c7Pair.1 0 0)).value = (readSq c7Heap (sqRef c7Grid 0 0)).value := by
  have h := c7_theorem (g := c7Grid) (h := c7Heap) (by decide) (by decide)
  refine ⟨h.1.1, ?_, (h.2.2.1.2.2 0 0 (by decide) (by decide)).2.2.1⟩
  exact (h.2.1 (sqRef c7Pair.1 0 0) (by decide) (sqRef c7Grid 0 0) (by decide)).1

/-! ### Claim C10: frame reasoning for the whole search -/

theorem gridInv_writeValueH {n0 d0 : Nat} {h : Heap} {g2 : HGrid}
    (hg : GridInv n0 d0 h g2) (r : Nat) (v : Int) :
    GridInv n0 d0 (writeValueH h r v) g2 := by
  obtain ⟨hdims, hreg, hco⟩ := hg
  refine ⟨hdims, ?_, ?_⟩
  · intro x hx
    have hb := hreg x hx
    obtain ⟨_, _, hdr⟩ := readSq_writeValueH_fields h r x v
    rw [hdr, (writeValueH_lengths h r v).1, (writeValueH_lengths h r v).2]
    exact hb
  · intro i hi j hj
    obtain ⟨hrow, hcol, _⟩ := readSq_writeValueH_fields h r (sqRef g2 i j) v
    rw [hrow, hcol]
    exact hco i hi j hj

theorem gridInv_assignDomH {n0 d0 : Nat} {h : Heap} {g2 : HGrid}
    (hg : GridInv n0 d0 h g2) (hd0 : d0 ≤ h.doms.length) (r : Nat) (d : List Int) :
    GridInv n0 d0 (assignDomH h r d) g2 := by
  obtain ⟨hdims, hreg, hco⟩ := hg
  refine ⟨hdims, ?_, ?_⟩
  · intro x hx
    have hb := hreg x hx
    rw [(assignDomH_lengths h r d).1, (assignDomH_lengths h r d).2]
    by_cases hxr : x = r
    · subst hxr
      by_cases hlt : x < h.sqs.length
      · rw [readSq_assignDomH_self h hlt d]
        refine ⟨hb.1, hb.2.1, hd0, ?_⟩
        show h.doms.length < h.doms.length + 1
        omega
      · rw [readSq_assignDomH_oob h hlt d]
        refine ⟨hb.1, hb.2.1, hb.2.2.1, by omega⟩
    · rw [readSq_assignDomH_ne h hxr d]
      refine ⟨hb.1, hb.2.1, hb.2.2.1, by omega⟩
  · intro i hi j hj
    obtain ⟨hrow, hcol, _⟩ := readSq_assignDomH_fields h r (sqRef g2 i j) d
    rw [hrow, hcol]
    exact hco i hi j hj

theorem gridInv_spliceDomH {n0 d0 : Nat} {h : Heap} {g2 : HGrid}
    (hg : GridInv n0 d0 h g2) (r : Nat) (v : Int) :
    GridInv n0 d0 (spliceDomH h r v) g2 := by
  obtain ⟨hdims, hreg, hco⟩ := hg
  refine ⟨hdims, ?_, ?_⟩
  · intro x hx
    have hb := hreg x hx
    rw [readSq_spliceDomH, (spliceDomH_lengths h r v).1, (spliceDomH_lengths h r v).2]
    exact hb
  · intro i hi j hj
    rw [readSq_spliceDomH]
    exact hco i hi j hj

theorem gridInv_extend {n0 d0 : Nat} {h h2 : Heap} {g2 : HGrid}
    (hg : GridInv n0 d0 h g2)
    (hre : ∀ r : Nat, r < h.sqs.length → readSq h2 r = readSq h r)
    (hls : h.sqs.length ≤ h2.sqs.length) (hld : h.doms.length ≤ h2.doms.length) :
    GridInv n0 d0 h2 g2 := by
  obtain ⟨hdims, hreg, hco⟩ := hg
  refine ⟨hdims, ?_, ?_⟩
  · intro x hx
    have hb := hreg x hx
    rw [hre x hb.2.1]
    refine ⟨hb.1, by omega, hb.2.2.1, by omega⟩
  · intro i hi j hj
    have hig : i < g2.length := by rw [hdims.1]; exact hi
    have hrow : (g2.getD i []).length = 9 := hdims.2 _ (getD_mem hig [])
    have hmem : sqRef g2 i j ∈ g2.flatten :=
      sqRef_mem_flatten hig (by rw [hrow]; exact hj)
    have hb := hreg _ hmem
    rw [hre _ hb.2.1]
    exact hco i hi j hj

theorem gridInv_mem {n0 d0 : Nat} {h : Heap} {g2 : HGrid} (hg : GridInv n0 d0 h g2)
    {i j : Nat} (hi : i < 9) (hj : j < 9) :
    sqRef g2 i j ∈ g2.flatten := by
  obtain ⟨hdims, _, _⟩ := hg
  have hig : i < g2.length := by rw [hdims.1]; exact hi
  have hrow : (g2.getD i []).length = 9 := hdims.2 _ (getD_mem hig [])
  exact sqRef_mem_flatten hig (by rw [hrow]; exact hj)

/-- Weakening the watermarks of the grid invariant. -/
theorem gridInv_mono {n0 d0 n1 d1 : Nat} {h : Heap} {g2 : HGrid} (hn : n0 ≤ n1)
    (hd : d0 ≤ d1) (hg : GridInv n1 d1 h g2) : GridInv n0 d0 h g2 :=
  ⟨hg.1, fun r hr => ⟨Nat.le_trans hn (hg.2.1 r hr).1, (hg.2.1 r hr).2.1,
     Nat.le_trans hd (hg.2.1 r hr).2.2.1, (hg.2.1 r hr).2.2.2⟩, hg.2.2⟩

/-- A grid satisfying the invariant forces the watermarks below the store
sizes (the grid is nonempty, so it exhibits a reference above each
watermark). -/
theorem gridInv_sizes {n0 d0 : Nat} {h : Heap} {g2 : HGrid}
    (hg : GridInv n0 d0 h g2) : SizesAbove n0 d0 h := by
  have hb := hg.2.1 _ (gridInv_mem hg (show 0 < 9 by decide) (show 0 < 9 by decide))
  exact ⟨by omega, by omega⟩

/-- One step of the search is frame-correct: the store below the watermarks
is untouched and the invariant of every live grid is preserved. -/
def StepOK (n0 d0 : Nat) (h h2 : Heap) : Prop :=
  FrameAbove n0 d0 h h2 ∧ ∀ g2 : HGrid, GridInv n0 d0 h g2 → GridInv n0 d0 h2 g2

theorem stepOK_refl (n0 d0 : Nat) (h : Heap) : StepOK n0 d0 h h :=
  ⟨frameAbove_refl .., fun _ hg => hg⟩

theorem stepOK_trans {n0 d0 : Nat} {h1 h2 h3 : Heap}
    (a : StepOK n0 d0 h1 h2) (b : StepOK n0 d0 h2 h3) : StepOK n0 d0 h1 h3 :=
  ⟨frameAbove_trans a.1 b.1, fun g2 hg => b.2 g2 (a.2 g2 hg)⟩

theorem stepOK_writeValueH {n0 d0 : Nat} {h : Heap} {r : Nat} (hr : n0 ≤ r) (v : Int) :
    StepOK n0 d0 h (writeValueH h r v) :=
  ⟨frameAbove_writeValueH hr v, fun _ hg => gridInv_writeValueH hg r v⟩

theorem stepOK_spliceDomH {n0 d0 : Nat} {h : Heap} {r : Nat}
    (hr : d0 ≤ (readSq h r).domRef) (v : Int) :
    StepOK n0 d0 h (spliceDomH h r v) :=
  ⟨frameAbove_spliceDomH hr v, fun _ hg => gridInv_spliceDomH hg r v⟩

theorem stepOK_assignDomH {n0 d0 : Nat} {h : Heap} {r : Nat} (hr : n0 ≤ r)
    (hd0 : d0 ≤ h.doms.length) (d : List Int) :
    StepOK n0 d0 h (assignDomH h r d) :=
  ⟨frameAbove_assignDomH hr hd0 d, fun _ hg => gridInv_assignDomH hg hd0 r d⟩

/-- Splicing through a square of an invariant grid is a frame-correct
step. -/
theorem stepOK_spliceMem {n0 d0 : Nat} {h : Heap} {g2 : HGrid}
    (hg : GridInv n0 d0 h g2) {i j : Nat} (hi : i < 9) (hj : j < 9) (v : Int) :
    StepOK n0 d0 h (spliceDomH h (sqRef g2 i j) v) :=
  stepOK_spliceDomH (hg.2.1 _ (gridInv_mem hg hi hj)).2.2.1 v

/-- The conditional splices of the pruning loops are frame-correct steps. -/
theorem stepOK_spliceCond {n0 d0 : Nat} {h : Heap} {g2 : HGrid}
    (hg : GridInv n0 d0 h g2) {i j : Nat} (hi : i < 9) (hj : j < 9)
    (c : Prop) [Decidable c] (v : Int) :
    StepOK n0 d0 h (if c then spliceDomH h (sqRef g2 i j) v else h) := by
  by_cases hc : c
  · rw [if_pos hc]
    exact stepOK_spliceMem hg hi hj v
  · rw [if_neg hc]
    exact stepOK_refl ..

/-- The row/column pruning loop of `updateDomains` is a frame-correct
step. -/
theorem rcLoopH_stepOK {n0 d0 : Nat} {g2 : HGrid} {row col : Nat} {v : Int}
    (hrow : row < 9) (hcol : col < 9) :
    ∀ (is : List Nat) (h : Heap), (∀ i ∈ is, i < 9) → GridInv n0 d0 h g2 →
    StepOK n0 d0 h (rcLoopH g2 row col v is h).1 := by
  intro is
  induction is with
  | nil =>
      intro h _ _
      exact stepOK_refl ..
  | cons i rest ih =>
      intro h hmem hg
      have hi : i < 9 := hmem i (List.mem_cons_self ..)
      simp only [rcLoopH]
      set h1 := if i ≠ col then spliceDomH h (sqRef g2 row i) v else h with hh1
      have s1 : StepOK n0 d0 h h1 := stepOK_spliceCond hg hrow hi _ v
      have hg1 : GridInv n0 d0 h1 g2 := s1.2 g2 hg
      set h2 := if i ≠ row then spliceDomH h1 (sqRef g2 i col) v else h1 with hh2
      have s2 : StepOK n0 d0 h1 h2 := stepOK_spliceCond hg1 hi hcol _ v
      have hg2 : GridInv n0 d0 h2 g2 := s2.2 g2 hg1
      split
      · exact stepOK_trans s1 s2
      · exact stepOK_trans (stepOK_trans s1 s2)
          (ih h2 (fun x hx => hmem x (List.mem_cons_of_mem _ hx)) hg2)

/-- The box pruning loop of `updateDomains` is a frame-correct step. -/
theorem boxLoopH_stepOK {n0 d0 : Nat} {g2 : HGrid} {row col : Nat} {v : Int} :
    ∀ (ps : List (Nat × Nat)) (h : Heap), (∀ p ∈ ps, p.1 < 9 ∧ p.2 < 9) →
    GridInv n0 d0 h g2 →
    StepOK n0 d0 h (boxLoopH g2 row col v ps h).1 := by
  intro ps
  induction ps with
  | nil =>
      intro h _ _
      exact stepOK_refl ..
  | cons p rest ih =>
      intro h hmem hg
      obtain ⟨i, j⟩ := p
      have hp := hmem (i, j) (List.mem_cons_self ..)
      simp only [boxLoopH]
      set h1 := if ¬(i = row ∧ j = col) then spliceDomH h (sqRef g2 i j) v else h with hh1
      have s1 : StepOK n0 d0 h h1 := stepOK_spliceCond hg hp.1 hp.2 _ v
      have hg1 : GridInv n0 d0 h1 g2 := s1.2 g2 hg
      split
      · exact s1
      · exact stepOK_trans s1
          (ih h1 (fun q hq => hmem q (List.mem_cons_of_mem _ hq)) hg1)

/-- `updateDomains` in the store-passing embedding is a frame-correct
step. -/
theorem updateDomainsH_stepOK {n0 d0 : Nat} {g2 : HGrid} {row col : Nat}
    (hrow : row < 9) (hcol : col < 9) {h : Heap} (hg : GridInv n0 d0 h g2) :
    StepOK n0 d0 h (updateDomainsH g2 row col h).1 := by
  simp only [updateDomainsH]
  split
  · exact stepOK_refl ..
  · have hb := hg.2.1 _ (gridInv_mem hg hrow hcol)
    have hsz := gridInv_sizes hg
    set h0 := assignDomH h (sqRef g2 row col) [(readSq h (sqRef g2 row col)).value] with hh0
    have s0 : StepOK n0 d0 h h0 := stepOK_assignDomH hb.1 hsz.2 _
    have hg0 : GridInv n0 d0 h0 g2 := s0.2 g2 hg
    have hrange : ∀ i ∈ List.range g2.length, i < 9 := by
      intro i hi2
      rw [List.mem_range, hg.1.1] at hi2
      exact hi2
    have s1 := @rcLoopH_stepOK n0 d0 g2 row col (readSq h (sqRef g2 row col)).value
      hrow hcol (List.range g2.length) h0 hrange hg0
    split
    next h1 heq =>
      rw [heq] at s1
      exact stepOK_trans s0 s1
    next h1 heq =>
      rw [heq] at s1
      have hg1 : GridInv n0 d0 h1 g2 := s1.2 g2 hg0
      exact stepOK_trans (stepOK_trans s0 s1)
        (boxLoopH_stepOK _ h1 (boxIdx_bounds hrow hcol) hg1)

/-- The loop of `updateAllDomains` is a frame-correct step. -/
theorem uadLoopH_stepOK {n0 d0 : Nat} {g2 : HGrid} :
    ∀ (ps : List (Nat × Nat)) (h : Heap), (∀ p ∈ ps, p.1 < 9 ∧ p.2 < 9) →
    GridInv n0 d0 h g2 →
    StepOK n0 d0 h (uadLoopH g2 ps h).1 := by
  intro ps
  induction ps with
  | nil =>
      intro h _ _
      exact stepOK_refl ..
  | cons p rest ih =>
      intro h hmem hg
      obtain ⟨i, j⟩ := p
      have hp := hmem (i, j) (List.mem_cons_self ..)
      have s1 := updateDomainsH_stepOK hp.1 hp.2 hg
      simp only [uadLoopH]
      split
      next h1 heq =>
        rw [heq] at s1
        exact s1
      next h1 heq =>
        rw [heq] at s1
        have hg1 : GridInv n0 d0 h1 g2 := s1.2 g2 hg
        exact stepOK_trans s1
          (ih h1 (fun q hq => hmem q (List.mem_cons_of_mem _ hq)) hg1)

/-- `updateAllDomains` in the store-passing embedding is a frame-correct
step. -/
theorem updateAllDomainsH_stepOK {n0 d0 : Nat} {g2 : HGrid} {h : Heap}
    (hg : GridInv n0 d0 h g2) :
    StepOK n0 d0 h (updateAllDomainsH g2 h).1 := by
  refine uadLoopH_stepOK _ h ?_ hg
  intro p hp
  obtain ⟨i, j⟩ := p
  rw [mem_rowMajor, hg.1.1] at hp
  exact hp

/-- `copySquares` of a 9×9 coordinate-correct board with valid references
leaves the whole store untouched and produces a grid satisfying the
invariant at the current store sizes as watermarks. -/
theorem copySquaresH_core {g : HGrid} {h : Heap} (hdims : HDims g)
    (hco : HCoords h g)
    (hval : ∀ r ∈ g.flatten, r < h.sqs.length ∧ (readSq h r).domRef < h.doms.length) :
    FrameAbove h.sqs.length h.doms.length h (copySquaresH g h).2 ∧
    GridInv h.sqs.length h.doms.length (copySquaresH g h).2 (copySquaresH g h).1 := by
  have hval2 : ∀ i2 ∈ List.range g.length, ∀ j2 ∈ List.range g.length,
      sqRef g i2 j2 < h.sqs.length ∧
      (readSq h (sqRef g i2 j2)).domRef < h.doms.length := by
    intro i2 hi2 j2 hj2
    rw [List.mem_range] at hi2
    rw [List.mem_range] at hj2
    have hrowl : (g.getD i2 []).length = 9 := hdims.2 _ (getD_mem hi2 [])
    have hj29 : j2 < 9 := by rw [hdims.1] at hj2; exact hj2
    exact hval _ (sqRef_mem_flatten hi2 (by rw [hrowl]; exact hj29))
  obtain ⟨hf, hlen, hrows, hbounds, hcontent⟩ :=
    copyRowsH_spec g g.length (List.range g.length) h hval2
  have hcseq : copyRowsH g g.length (List.range g.length) h = copySquaresH g h := rfl
  rw [hcseq] at hf hlen hrows hbounds hcontent
  refine ⟨hf, ⟨?_, ?_⟩, hbounds, ?_⟩
  · rw [hlen, List.length_range, hdims.1]
  · intro row hr
    rw [hrows row hr, hdims.1]
  · intro i hi j hj
    have hig : i < g.length := by rw [hdims.1]; exact hi
    have hjg : j < g.length := by rw [hdims.1]; exact hj
    have hc := hcontent i j (by rw [List.length_range]; exact hig) hjg
    rw [getD_range hig] at hc
    have hcoij := hco i hi j hj
    exact ⟨hc.1.trans hcoij.1, hc.2.1.trans hcoij.2⟩

/-- `copySquares` of an invariant grid is a frame-correct step, and its
result is again an invariant grid. -/
theorem copySquaresH_stepOK {n0 d0 : Nat} {g2 : HGrid} {h : Heap}
    (hg : GridInv n0 d0 h g2) :
    StepOK n0 d0 h (copySquaresH g2 h).2 ∧
    GridInv n0 d0 (copySquaresH g2 h).2 (copySquaresH g2 h).1 := by
  have hsz := gridInv_sizes hg
  obtain ⟨hf, hinv⟩ := copySquaresH_core hg.1 hg.2.2
    (fun r hr => ⟨(hg.2.1 r hr).2.1, (hg.2.1 r hr).2.2.2⟩)
  refine ⟨⟨frameAbove_mono hsz.1 hsz.2 hf, ?_⟩, gridInv_mono hsz.1 hsz.2 hinv⟩
  intro g3 hg3
  exact gridInv_extend hg3 (fun r hr => readSq_frame hf hr) hf.2.2.1 hf.2.2.2

/-- When the `getEmptySquare` scan finds a square, the returned reference is
one of the grid's own references. -/
theorem gesLoopH_some {h : Heap} {g2 : HGrid} :
    ∀ (ps : List (Nat × Nat)) {r : Nat}, gesLoopH h g2 ps = some r →
    ∃ p ∈ ps, r = sqRef g2 p.1 p.2 := by
  intro ps
  induction ps with
  | nil =>
      intro r hr
      exact Option.noConfusion hr
  | cons p rest ih =>
      intro r hr
      obtain ⟨i, j⟩ := p
      simp only [gesLoopH] at hr
      split at hr
      · exact ⟨(i, j), List.mem_cons_self .., (Option.some.inj hr).symm⟩
      · obtain ⟨q, hq, hrq⟩ := ih hr
        exact ⟨q, List.mem_cons_of_mem _ hq, hrq⟩

/-- `getEmptySquare` in the store-passing embedding is a frame-correct step,
and the coordinates stored in the returned square (as `backtrack` truncates
them to naturals) are inside the 9×9 range — also in the sentinel branch,
whose coordinates are `-1`. -/
theorem getEmptySquareH_stepOK {n0 d0 : Nat} {g2 : HGrid} {h : Heap}
    (hg : GridInv n0 d0 h g2) :
    StepOK n0 d0 h (getEmptySquareH g2 h).2 ∧
    (readSq (getEmptySquareH g2 h).2 (getEmptySquareH g2 h).1).row.toNat < 9 ∧
    (readSq (getEmptySquareH g2 h).2 (getEmptySquareH g2 h).1).col.toNat < 9 := by
  have hsz := gridInv_sizes hg
  simp only [getEmptySquareH]
  split
  next r heq =>
    obtain ⟨p, hp, hrp⟩ := gesLoopH_some _ heq
    obtain ⟨i, j⟩ := p
    rw [mem_rowMajor, hg.1.1] at hp
    have hco := hg.2.2 i hp.1 j hp.2
    refine ⟨stepOK_refl .., ?_, ?_⟩
    · show (readSq h r).row.toNat < 9
      rw [hrp, hco.1]
      exact hp.1
    · show (readSq h r).col.toNat < 9
      rw [hrp, hco.2]
      exact hp.2
  next heq =>
    have hfr : FrameAbove h.sqs.length h.doms.length h
        ⟨h.sqs ++ [⟨-1, -1, -1, h.doms.length⟩], h.doms ++ [[]]⟩ := by
      refine ⟨List.take_append_of_le_length (Nat.le_refl _),
        List.take_append_of_le_length (Nat.le_refl _), ?_, ?_⟩
      · show h.sqs.length ≤ (h.sqs ++ _).length
        rw [List.length_append]
        omega
      · show h.doms.length ≤ (h.doms ++ _).length
        rw [List.length_append]
        omega
    refine ⟨⟨frameAbove_mono hsz.1 hsz.2 hfr, ?_⟩, ?_, ?_⟩
    · intro g3 hg3
      exact gridInv_extend hg3 (fun r hr => readSq_frame hfr hr) hfr.2.2.1 hfr.2.2.2
    · show (readSq _ h.sqs.length).row.toNat < 9
      have hread : readSq ⟨h.sqs ++ [⟨-1, -1, -1, h.doms.length⟩], h.doms ++ [[]]⟩
          h.sqs.length = ⟨-1, -1, -1, h.doms.length⟩ := getD_append_self _ _ _
      rw [hread]
      show ((-1 : Int)).toNat < 9
      decide
    · show (readSq _ h.sqs.length).col.toNat < 9
      have hread : readSq ⟨h.sqs ++ [⟨-1, -1, -1, h.doms.length⟩], h.doms ++ [[]]⟩
          h.sqs.length = ⟨-1, -1, -1, h.doms.length⟩ := getD_append_self _ _ _
      rw [hread]
      show ((-1 : Int)).toNat < 9
      decide

/-- The candidate loop of `backtrack` is a frame-correct step, given that
the recursive calls it makes are. -/
theorem tryCandidatesH_stepOK {n0 d0 : Nat}
    {bt : HGrid × Bool → Heap → Option ((HGrid × Bool) × Heap)}
    (hbt : ∀ (sud : HGrid × Bool) (h3 : Heap), GridInv n0 d0 h3 sud.1 →
      ∀ r4, bt sud h3 = some r4 → StepOK n0 d0 h3 r4.2)
    {g2 : HGrid} {row col : Nat} (hrow : row < 9) (hcol : col < 9) :
    ∀ (cands : List Int) (h : Heap), GridInv n0 d0 h g2 →
    ∀ r2, tryCandidatesH bt g2 row col cands h = some r2 →
    StepOK n0 d0 h r2.2 := by
  intro cands
  induction cands with
  | nil =>
      intro h hg r2 hr2
      simp only [tryCandidatesH] at hr2
      cases hr2
      exact stepOK_refl ..
  | cons value rest ih =>
      intro h hg r2 hr2
      simp only [tryCandidatesH] at hr2
      obtain ⟨s_pc, hg_pc⟩ := copySquaresH_stepOK hg
      set pc := copySquaresH g2 h with hpc
      have hb_ref := hg_pc.2.1 _ (gridInv_mem hg_pc hrow hcol)
      have s_w : StepOK n0 d0 pc.2 (writeValueH pc.2 (sqRef pc.1 row col) value) :=
        stepOK_writeValueH hb_ref.1 value
      set h2 := writeValueH pc.2 (sqRef pc.1 row col) value with hh2
      have hg_h2 : GridInv n0 d0 h2 pc.1 := s_w.2 pc.1 hg_pc
      have s_ud := updateDomainsH_stepOK hrow hcol hg_h2
      split at hr2
      next h3 heq =>
        rw [heq] at s_ud
        have s03 : StepOK n0 d0 h h3 := stepOK_trans s_pc (stepOK_trans s_w s_ud)
        have hg_h3 : GridInv n0 d0 h3 pc.1 := s_ud.2 pc.1 hg_h2
        obtain ⟨s_pc2, hg_pc2⟩ := copySquaresH_stepOK hg_h3
        set pc2 := copySquaresH pc.1 h3 with hpc2
        split at hr2
        · exact Option.noConfusion hr2
        next result h4 heq2 =>
          have s_bt := hbt (pc2.1, false) pc2.2 hg_pc2 (result, h4) heq2
          have s04 : StepOK n0 d0 h h4 :=
            stepOK_trans s03 (stepOK_trans s_pc2 s_bt)
          split at hr2
          · cases hr2
            exact s04
          · have hg_h4 : GridInv n0 d0 h4 g2 := s04.2 g2 hg
            exact stepOK_trans s04 (ih h4 hg_h4 r2 hr2)
      next h3 heq =>
        rw [heq] at s_ud
        have s03 : StepOK n0 d0 h h3 := stepOK_trans s_pc (stepOK_trans s_w s_ud)
        have hg_h3 : GridInv n0 d0 h3 g2 := s03.2 g2 hg
        exact stepOK_trans s03 (ih h3 hg_h3 r2 hr2)

/-- `backtrack` in the store-passing embedding is a frame-correct step, for
any fuel: the whole search never touches the store below the watermarks and
keeps every live grid's references fresh and valid. -/
theorem backtrackH_stepOK {n0 d0 : Nat} : ∀ (fuel : Nat) (sud : HGrid × Bool) (h : Heap),
    GridInv n0 d0 h sud.1 →
    ∀ r2, backtrackH fuel sud h = some r2 → StepOK n0 d0 h r2.2 := by
  intro fuel
  induction fuel with
  | zero =>
      intro sud h hg r2 hr2
      exact Option.noConfusion hr2
  | succ fuel ih =>
      intro sud h hg r2 hr2
      simp only [backtrackH] at hr2
      split at hr2
      · cases hr2
        exact stepOK_refl ..
      · obtain ⟨s_ges, hrowlt, hcollt⟩ := getEmptySquareH_stepOK hg
        set pe := getEmptySquareH sud.1 h with hpe
        have hg_pe : GridInv n0 d0 pe.2 sud.1 := s_ges.2 sud.1 hg
        split at hr2
        · exact Option.noConfusion hr2
        next result h2 heq =>
          have s_tc := tryCandidatesH_stepOK ih hrowlt hcollt
            (readDom pe.2 (readSq pe.2 pe.1).domRef) pe.2 hg_pe (some result, h2) heq
          cases hr2
          exact stepOK_trans s_ges s_tc
        next h2 heq =>
          have s_tc := tryCandidatesH_stepOK ih hrowlt hcollt
            (readDom pe.2 (readSq pe.2 pe.1).domRef) pe.2 hg_pe (none, h2) heq
          have hg_h2 : GridInv n0 d0 h2 sud.1 := s_tc.2 sud.1 hg_pe
          obtain ⟨s_pc, _⟩ := copySquaresH_stepOK hg_h2
          cases hr2
          exact stepOK_trans (stepOK_trans s_ges s_tc) s_pc

/-- Claim C10: `solve` leaves its argument completely unmodified.  Against
the store-passing embedding: for every 9×9 coordinate-correct board `g`
whose references into the store `h` are valid, if `solve` returns (with any
result) in final store `h2`, then every pre-existing Square object and every
pre-existing domain array is unchanged — in particular every square of the
caller's grid reads back with the same fields and the same domain contents
as before the call. -/
theorem c10_theorem {g : HGrid} {h : Heap} (hdims : HDims g) (hco : HCoords h g)
    (hval : HValid h g) {res : HGrid × Bool} {h2 : Heap}
    (hrun : solveH g h = some (res, h2)) :
    h2.sqs.take h.sqs.length = h.sqs ∧ h2.doms.take h.doms.length = h.doms ∧
    ∀ r ∈ g.flatten, readSq h2 r = readSq h r ∧
      readDom h2 (readSq h r).domRef = readDom h (readSq h r).domRef := by
  obtain ⟨hf1, hinv1⟩ := copySquaresH_core hdims hco hval
  simp only [solveH] at hrun
  set p1 := copySquaresH g h with hp1
  have s2 := updateAllDomainsH_stepOK hinv1
  set p2 := updateAllDomainsH p1.1 p1.2 with hp2
  have hinv2 : GridInv h.sqs.length h.doms.length p2.1 p1.1 := s2.2 p1.1 hinv1
  obtain ⟨s3, hinv3⟩ := copySquaresH_stepOK hinv2
  set p3 := copySquaresH p1.1 p2.1 with hp3
  have s4 := backtrackH_stepOK (zeroCountH p3.2 p3.1 + 1) (p3.1, false) p3.2 hinv3
    (res, h2) hrun
  have ftot : FrameAbove h.sqs.length h.doms.length h h2 :=
    frameAbove_trans hf1 (stepOK_trans s2 (stepOK_trans s3 s4)).1
  refine ⟨?_, ?_, ?_⟩
  · rw [ftot.1]
    exact List.take_length h.sqs
  · rw [ftot.2.1]
    exact List.take_length h.doms
  · intro r hr
    have hv := hval r hr
    exact ⟨readSq_frame ftot hv.1, readDom_frame ftot hv.2⟩

set_option maxRecDepth 100000 in
/-- Witness for C10 at the concrete store `c10Heap` holding the all-1s board
`c10Grid`: `solve` returns and the original 81 squares and 81 domain arrays
read back unchanged. -/
theorem c10_witness :
    c10ResPair.2.sqs.take c10Heap.sqs.length = c10Heap.sqs ∧
    c10ResPair.2.doms.take c10Heap.doms.length = c10Heap.doms ∧
    ∀ r ∈ c10Grid.flatten, readSq c10ResPair.2 r = readSq c10Heap r ∧
      readDom c10ResPair.2 (readSq c10Heap r).domRef
        = readDom c10Heap (readSq c10Heap r).domRef :=
  @c10_theorem c10Grid c10Heap (by decide) (by decide) (by decide)
    c10ResPair.1 c10ResPair.2 (by decide)
